import Mathlib

/-!
# GRS_PA02: two-copy, one-copy and zero-copy TCP benchmark

A shallow embedding of the receive, send and aggregation paths of the six
programs `MT25190_Part_A{1,2,3}_{Client,Server}.c`, and the properties of the
specification established (or refuted) on it.

Conventions of the embedding.

* Every kernel call is answered from a *script*: the list of results the
  successive calls of that kind return.  A blocking call facing an exhausted
  script never returns; functions built on it report this as `none` or as the
  exit tag `blocked`.
* `size_t`, `ssize_t` and `int` values are integers with the conversions at the
  places where the source converts (`to_size_t`, `to_ssize_t`, `to_int`).
* `long` counters are unbounded integers and the `double` elapsed time is an
  exact rational.
-/

namespace GRS

/-! ## Machine integers and errno values -/

/-- Conversion of a signed value to `size_t` (64 bit). -/
def to_size_t (x : Int) : Nat := (x % 2 ^ 64).toNat

/-- Conversion of a `size_t` value to `ssize_t` (64 bit, two's complement). -/
def to_ssize_t (n : Nat) : Int :=
  if n % 2 ^ 64 < 2 ^ 63 then ((n % 2 ^ 64 : Nat) : Int)
  else ((n % 2 ^ 64 : Nat) : Int) - 2 ^ 64

/-- Narrowing of a signed value to `int` (32 bit, two's complement). -/
def to_int (x : Int) : Int := (x + 2 ^ 31) % 2 ^ 32 - 2 ^ 31

def EINTR : Int := 4
def EAGAIN : Int := 11
def EWOULDBLOCK : Int := 11
def EPIPE : Int := 32
def ECONNRESET : Int := 104

/-! ## Data shared by the programs -/

/-- Result of one `recv` call: either the bytes the kernel copied into the
user buffer (the call returns their number, `0` meaning the peer closed), or a
failure (the call returns `-1` and sets `errno`). -/
inductive RecvResult where
  | bytes (chunk : List Nat)
  | fail (errno : Int)
  deriving DecidableEq, Repr

/-- The `ssize_t` value returned by the call. -/
def RecvResult.ret : RecvResult → Int
  | .bytes chunk => (chunk.length : Int)
  | .fail _ => -1

/-- The value of `errno` after the call (meaningful after a failure). -/
def RecvResult.errno : RecvResult → Int
  | .bytes _ => 0
  | .fail e => e

/-- The bytes the call stored. -/
def RecvResult.chunk : RecvResult → List Nat
  | .bytes chunk => chunk
  | .fail _ => []

/-- Result of one `send` call: the `ssize_t` it returns and the `errno` it
leaves. -/
structure SendResult where
  ret : Int
  errno : Int
  deriving DecidableEq, Repr

/-- Memory starting at a pointer, after `chunk` is stored at offset `off`. -/
def writeAt (mem : List Nat) (off : Nat) (chunk : List Nat) : List Nat :=
  mem.take off ++ List.replicate (off - mem.length) 0 ++ chunk ++ mem.drop (off + chunk.length)

/-- The structure `ThreadStats` of the three clients. -/
structure ThreadStats where
  bytes_received : Int
  messages_received : Int
  elapsed_time : ℚ
  deriving DecidableEq

/-- What a client worker sees of the world besides its socket: `clock k` is the
elapsed time in seconds measured by its `k`-th `clock_gettime` call after the
start of the timing, and `others k` tells whether another thread has cleared
the shared flag `running` by the `k`-th evaluation of `while (running)`. -/
structure ClientEnv where
  clock : Nat → ℚ
  others : Nat → Bool

/-- An environment in which the deadline never passes and no other thread
clears `running`. -/
def quiet : ClientEnv := ⟨fun _ => 0, fun _ => false⟩

/-- An environment whose clock always reads one second and in which no other
thread clears `running`. -/
def steady : ClientEnv := ⟨fun _ => 1, fun _ => false⟩

/-- Why a worker left (or got stuck in) its loop. -/
inductive Exit where
  | stopped
  | recv_error
  | send_error
  | closed
  | blocked
  | out_of_fuel
  | alloc_failed
  | null_deref
  deriving DecidableEq, Repr

/-- Whether a server worker that ended this way executed `close(client_sock)`:
the call stands right before each `return` of the three `client_handler`s, so
it is made exactly when the handler returns. -/
def Exit.closes : Exit → Bool
  | .blocked => false
  | .out_of_fuel => false
  | .null_deref => false
  | _ => true

/-- State of a client worker inside its receive loop.  `fields` lists the
values returned by the receive calls so far, `calls` the `recv` calls issued
as (offset into the buffer, requested length), `heads` counts the evaluations
of `while (running)` and `ticks` the in-loop clock readings. -/
structure Worker where
  stats : ThreadStats
  running : Bool
  buffer : List Nat
  script : List RecvResult
  fields : List Int
  calls : List (Nat × Nat)
  heads : Nat
  ticks : Nat

/-- The worker state when the timing starts: `stats = {0, 0, 0.0}`. -/
def Worker.start (running : Bool) (buffer : List Nat) (script : List RecvResult) : Worker :=
  { stats := ⟨0, 0, 0⟩, running := running, buffer := buffer, script := script,
    fields := [], calls := [], heads := 0, ticks := 0 }

/-- The statements after the loop: the final `elapsed_time` is taken. -/
def Worker.finish (env : ClientEnv) (w : Worker) : Worker :=
  { w with stats := { w.stats with elapsed_time := env.clock w.ticks } }

/-- One pass of the join loop of `main` (identical in the three clients): a
worker that returned no stats is skipped, otherwise the byte and message counts
are added and the elapsed time replaces the aggregate one when it is larger. -/
def join_step (aggregate : ThreadStats) : Option ThreadStats → ThreadStats
  | none => aggregate
  | some stats =>
    let a1 : ThreadStats :=
      { aggregate with bytes_received := aggregate.bytes_received + stats.bytes_received }
    let a2 : ThreadStats :=
      { a1 with messages_received := a1.messages_received + stats.messages_received }
    if stats.elapsed_time > a2.elapsed_time then
      { a2 with elapsed_time := stats.elapsed_time }
    else a2

/-- The reduction of the join loop, as the specification words it: sums of the
counts, and the maximum of the elapsed times (0 for no worker). -/
def IsReduction (workers : List ThreadStats) (agg : ThreadStats) : Prop :=
  agg.bytes_received = (workers.map ThreadStats.bytes_received).sum ∧
  agg.messages_received = (workers.map ThreadStats.messages_received).sum ∧
  (workers = [] → agg.elapsed_time = 0) ∧
  (workers ≠ [] → agg.elapsed_time ∈ workers.map ThreadStats.elapsed_time) ∧
  (∀ s ∈ workers, s.elapsed_time ≤ agg.elapsed_time)

/-- The statements of the six programs that assign the flag `running`: the
`running = 0;` of `signal_handler` in the three servers, and the
`if (elapsed >= run_duration) running = 0;` of `client_thread` in the three
clients. -/
inductive FlagWrite where
  | signal_handler (signum : Int)
  | deadline (elapsed : ℚ) (run_duration : Int)

/-- The value of `running` after one of these statements is executed. -/
def FlagWrite.apply : FlagWrite → Int → Int
  | .signal_handler _, _ => 0
  | .deadline elapsed run_duration, running =>
    if elapsed ≥ (run_duration : ℚ) then 0 else running

/-- Whether the statement, when executed, stores 0 in `running`: the signal
handler always does, the deadline check when the deadline is reached. -/
def FlagWrite.clears : FlagWrite → Bool
  | .signal_handler _ => true
  | .deadline elapsed run_duration => decide (elapsed ≥ (run_duration : ℚ))

/-- The successive values of `running` in an execution: its initial value,
then its value after each executed statement that assigns it, in the order in
which the assignments take effect. -/
def flag_history (init : Int) : List FlagWrite → List Int
  | [] => [init]
  | w :: ws => init :: flag_history (w.apply init) ws

/-- What one worker thread of a client meets after its setup: its
environment, the value of `running` it starts with, the memory of its receive
buffer and the script of its socket. -/
structure WorkerInput where
  env : ClientEnv
  running : Bool
  buffer : List Nat
  script : List RecvResult

/-- What `pthread_join` obtains from a worker that reached its receive loop:
nothing as long as the worker does not return, else the pointer to its stats. -/
def Worker.result (r : Exit × Worker) : Option (Option ThreadStats) :=
  if r.1 = Exit.blocked ∨ r.1 = Exit.out_of_fuel then none else some (some r.2.stats)

/-- The join loop gets past all the workers only if each of them returns. -/
def join_all : List (Option (Option ThreadStats)) → Option (List (Option ThreadStats))
  | [] => some []
  | none :: _ => none
  | some r :: rest => (join_all rest).map (fun rs => r :: rs)

/-- Stats a client worker can produce: messages are counted from 0, each
counted message brought at least one byte, and the elapsed time is not
negative. -/
def Sound (s : ThreadStats) : Prop :=
  0 ≤ s.messages_received ∧ s.messages_received ≤ s.bytes_received ∧ 0 ≤ s.elapsed_time

/-- Value of a `double` expression of `main`, computed in exact arithmetic: a
finite number, or what a division by zero leaves (an infinity or a NaN). -/
inductive FVal where
  | fin (q : ℚ)
  | pos_inf
  | neg_inf
  | nan
  deriving DecidableEq

/-- Division of two finite `double` values; the divisors of `main` are never
negative zeros. -/
def fdiv (x y : ℚ) : FVal :=
  if y = 0 then
    if 0 < x then .pos_inf else if x < 0 then .neg_inf else .nan
  else .fin (x / y)

/-- The comparison `v > 0` on such a value. -/
def FVal.positive : FVal → Prop
  | .fin q => 0 < q
  | .pos_inf => True
  | .neg_inf => False
  | .nan => False

/-- Whether the value is a finite number. -/
def FVal.finite : FVal → Prop
  | .fin _ => True
  | _ => False

/-- The line `double throughput_gbps = (aggregate.bytes_received * 8.0) /
(aggregate.elapsed_time * 1e9);` of `main` (identical in the three clients). -/
def throughput_gbps (aggregate : ThreadStats) : FVal :=
  fdiv ((aggregate.bytes_received : ℚ) * 8) (aggregate.elapsed_time * 10 ^ 9)

/-- The line `double latency_us = (aggregate.elapsed_time * 1e6) /
aggregate.messages_received;` of `main` (identical in the three clients). -/
def latency_us (aggregate : ThreadStats) : FVal :=
  fdiv (aggregate.elapsed_time * 10 ^ 6) (aggregate.messages_received : ℚ)

/-- The metrics of an aggregate, as the specification words them: with the
sums of the workers' counts and the maximum `M` of their elapsed times,
throughput = total_bytes×8 / (M×1e9) and latency = M×1e6 / total_messages. -/
def IsMetrics (workers : List ThreadStats) (agg : ThreadStats) : Prop :=
  ∃ M : ℚ, M ∈ workers.map ThreadStats.elapsed_time ∧
    (∀ s ∈ workers, s.elapsed_time ≤ M) ∧
    throughput_gbps agg
      = fdiv (((workers.map ThreadStats.bytes_received).sum : ℚ) * 8) (M * 10 ^ 9) ∧
    latency_us agg
      = fdiv (M * 10 ^ 6) ((workers.map ThreadStats.messages_received).sum : ℚ)

/-! ## Two-copy client (`MT25190_Part_A1_Client.c`) -/

namespace A1_Client

def BUFFER_SIZE : Nat := 8192

/-- What a call of `receive_data` leaves behind: its return value, the memory at
`buffer`, the `recv` calls it issued as (offset into the buffer, requested
length), and the part of the script it did not consume. -/
structure RecvOutcome where
  ret : Int
  buffer : List Nat
  calls : List (Nat × Nat)
  rest : List RecvResult
  deriving DecidableEq, Repr

/-- The `while (total_received < size)` loop of `receive_data`. -/
def receive_loop (size : Nat) :
    List RecvResult → Nat → List Nat → List (Nat × Nat) → Option RecvOutcome
  | [], total_received, buffer, calls =>
    if total_received < size then none
    else some ⟨to_ssize_t total_received, buffer, calls, []⟩
  | r :: rest, total_received, buffer, calls =>
    if total_received < size then
      let calls1 := calls ++ [(total_received, size - total_received)]
      if r.ret < 0 then
        if r.errno = EINTR then receive_loop size rest total_received buffer calls1
        else some ⟨-1, buffer, calls1, rest⟩
      else if r.ret = 0 then
        some ⟨to_ssize_t total_received, buffer, calls1, rest⟩
      else
        receive_loop size rest ((total_received + r.ret.toNat) % 2 ^ 64)
          (writeAt buffer total_received r.chunk) calls1
    else some ⟨to_ssize_t total_received, buffer, calls, r :: rest⟩

/-- The function `receive_data(sockfd, buffer, size)`. -/
def receive_data (size : Nat) (buffer : List Nat) (script : List RecvResult) :
    Option RecvOutcome :=
  receive_loop size script 0 buffer []

/-- What the caller of `receive_data` can observe of a call: the value
returned and the bytes in the buffer (nothing if the call does not return). -/
def visible (o : Option RecvOutcome) : Option (Int × List Nat) :=
  o.map (fun o => (o.ret, o.buffer))

/-- The script `s` with interrupted calls inserted: `counts[i]` results
`fail EINTR` before the `i`-th result of `s`, and the next count of them after
its last result. -/
def with_eintr : List Nat → List RecvResult → List RecvResult
  | [], s => s
  | n :: _, [] => List.replicate n (.fail EINTR)
  | n :: ns, r :: s => List.replicate n (.fail EINTR) ++ r :: with_eintr ns s

/-- Starting with `t` bytes of the `size` requested already received, the
script holds a `recv` failure other than EINTR that comes before the requested
size is satisfied and before any `recv` returned 0. -/
def ErrorAhead (size t : Nat) (s : List RecvResult) : Prop :=
  ∃ pre e rest, s = pre ++ RecvResult.fail e :: rest ∧ e ≠ EINTR ∧
    (∀ r ∈ pre, r.ret ≠ 0) ∧ t + (pre.map (fun r => r.chunk.length)).sum < size

/-- Result of the inner `for` loop: it ran to the end, or jumped to `cleanup`
(or hangs in a `recv` that never returns). -/
inductive FieldLoop where
  | done (w : Worker)
  | cleanup (e : Exit) (w : Worker)

/-- The worker state the inner loop ends in. -/
def FieldLoop.worker : FieldLoop → Worker
  | .done w => w
  | .cleanup _ w => w

/-- Whether the inner loop ran to its end. -/
def FieldLoop.is_done : FieldLoop → Bool
  | .done _ => true
  | .cleanup _ _ => false

/-- The loop `for (int i = 0; i < 8; i++)` of `client_thread`, with `n`
iterations still to run. -/
def field_loop (message_size : Int) : Nat → Worker → FieldLoop
  | 0, w => .done w
  | n + 1, w =>
    match receive_data (to_size_t message_size) w.buffer w.script with
    | none => .cleanup .blocked w
    | some o =>
      let w1 : Worker :=
        { w with buffer := o.buffer, script := o.rest, fields := w.fields ++ [o.ret],
                 calls := w.calls ++ o.calls }
      if o.ret < 0 then .cleanup .recv_error w1
      else if o.ret = 0 then .cleanup .closed w1
      else
        field_loop message_size n
          { w1 with stats := { w1.stats with bytes_received := w1.stats.bytes_received + o.ret } }

/-- The loop `while (running)` of `client_thread`. -/
def client_loop (message_size run_duration : Int) (env : ClientEnv) : Nat → Worker → Exit × Worker
  | 0, w => (.out_of_fuel, w)
  | fuel + 1, w =>
    let w0 : Worker := { w with running := w.running && !env.others w.heads, heads := w.heads + 1 }
    if w0.running then
      match field_loop message_size 8 w0 with
      | .cleanup e w1 => (e, w1)
      | .done w1 =>
        let w2 : Worker :=
          { w1 with stats := { w1.stats with messages_received := w1.stats.messages_received + 1 } }
        let elapsed := env.clock w2.ticks
        let w3 : Worker := { w2 with ticks := w2.ticks + 1 }
        if elapsed ≥ (run_duration : ℚ) then
          client_loop message_size run_duration env fuel { w3 with running := false }
        else
          client_loop message_size run_duration env fuel w3
    else (.stopped, w0)

/-- The function `client_thread` from the start of the timing on: the receive
loop, then the final `elapsed_time` taken at `cleanup`.  Every iteration of
the receive loop that does not leave it consumes `recv` results, so
`script.length + 1` iterations are never exceeded. -/
def client_thread (message_size run_duration : Int) (env : ClientEnv) (running : Bool)
    (buffer : List Nat) (script : List RecvResult) : Exit × Worker :=
  let r := client_loop message_size run_duration env (script.length + 1)
    (Worker.start running buffer script)
  (r.1, r.2.finish env)

/-- The join loop of `main` (lines 232-244), from `aggregate = {0, 0, 0.0}`. -/
def aggregate (results : List (Option ThreadStats)) : ThreadStats :=
  results.foldl join_step ⟨0, 0, 0⟩

/-- What `pthread_join` obtains from a worker thread; `none` as input stands
for a worker whose setup failed, which returns `NULL`. -/
def thread_result (message_size run_duration : Int) :
    Option WorkerInput → Option (Option ThreadStats)
  | none => some none
  | some i => Worker.result (client_thread message_size run_duration i.env i.running i.buffer i.script)

/-- The function `main` from the creation of the workers to the aggregate it
reports; `none` when a worker never returns. -/
def main (message_size run_duration : Int) (workers : List (Option WorkerInput)) :
    Option ThreadStats :=
  (join_all (workers.map (thread_result message_size run_duration))).map aggregate

end A1_Client

/-! ## Two-copy server (`MT25190_Part_A1_Server.c`) -/

namespace A1_Server

/-- State inside `send_message_twocopy`: the running `total_sent`, the `send`
calls issued so far as (field number, requested length), and the unread part
of the script. -/
structure SendState where
  total_sent : Int
  calls : List (Nat × Nat)
  script : List SendResult
  deriving DecidableEq, Repr

/-- Ways a field block ends the function early: the `send` never returns, or
it failed and the function returns `-1`. -/
inductive SendStop where
  | blocked (st : SendState)
  | failed (st : SendState)

/-- One block of `send_message_twocopy`:
`bytes_sent = send(sockfd, msg->fieldN, field_size, 0);`
`if (bytes_sent < 0) return -1;  total_sent += bytes_sent;`. -/
def send_field (field_size : Int) (field : Nat) (st : SendState) : Except SendStop SendState :=
  match st.script with
  | [] => .error (.blocked st)
  | r :: rest =>
    let st1 : SendState :=
      { st with calls := st.calls ++ [(field, to_size_t field_size)], script := rest }
    if r.ret < 0 then .error (.failed st1)
    else .ok { st1 with total_sent := st1.total_sent + r.ret }

/-- What a call of `send_message_twocopy` leaves behind: the `int` it returns
(`none` when a `send` never returns), the bytes the kernel accepted
(`total_sent` before the narrowing to `int`), the calls issued and the unread
part of the script. -/
structure SendOutcome where
  ret : Option Int
  total_sent : Int
  calls : List (Nat × Nat)
  rest : List SendResult
  deriving DecidableEq, Repr

/-- The eight blocks of `send_message_twocopy`, field1 to field8. -/
def send_fields (field_size : Int) (script : List SendResult) : Except SendStop SendState := do
  let st ← send_field field_size 1 ⟨0, [], script⟩
  let st ← send_field field_size 2 st
  let st ← send_field field_size 3 st
  let st ← send_field field_size 4 st
  let st ← send_field field_size 5 st
  let st ← send_field field_size 6 st
  let st ← send_field field_size 7 st
  send_field field_size 8 st

/-- The function `send_message_twocopy(sockfd, msg, field_size)`. -/
def send_message_twocopy (field_size : Int) (script : List SendResult) : SendOutcome :=
  match send_fields field_size script with
  | .ok st => ⟨some (to_int st.total_sent), st.total_sent, st.calls, st.script⟩
  | .error (.failed st) => ⟨some (-1), st.total_sent, st.calls, st.script⟩
  | .error (.blocked st) => ⟨none, st.total_sent, st.calls, st.script⟩

/-- The structure `Message`: the contents of `field1` to `field8`. -/
structure Message where
  fields : List (List Nat)
  deriving DecidableEq, Repr

/-- The contents of a field after `memset(msg->fieldN, c, field_size - 1)` and
`msg->fieldN[field_size - 1] = 0`, for a `field_size` of at least 1. -/
def field_content (field_size : Int) (c : Nat) : List Nat :=
  writeAt (List.replicate (field_size - 1).toNat c) (field_size - 1).toNat [0]

/-- The function `allocate_message(field_size)`; `none` is `NULL`.  `msg_ok`
tells whether the `malloc` of the structure succeeds and `field_ok i` whether
the `malloc` of field `i` does. -/
def allocate_message (field_size : Int) (msg_ok : Bool) (field_ok : Nat → Bool) :
    Option Message :=
  if !msg_ok then none
  else if !field_ok 1 || !field_ok 2 || !field_ok 3 || !field_ok 4 ||
      !field_ok 5 || !field_ok 6 || !field_ok 7 || !field_ok 8 then none
  else
    some ⟨[field_content field_size 65, field_content field_size 66,
      field_content field_size 67, field_content field_size 68, field_content field_size 69,
      field_content field_size 70, field_content field_size 71, field_content field_size 72]⟩

/-- What a server worker leaves behind: how it ended, its `messages_sent`, the
`send` calls it issued and the unread part of the script. -/
structure Handler where
  exit : Exit
  messages_sent : Int
  calls : List (Nat × Nat)
  rest : List SendResult
  deriving DecidableEq, Repr

/-- The loop `while (running)` of `client_handler` (lines 203-215).
`running k` is the value of the flag at the `k`-th evaluation of the loop
condition. -/
def handler_loop (field_size : Int) (running : Nat → Bool) :
    Nat → Nat → List SendResult → Int → Handler
  | 0, _, script, messages_sent => ⟨.out_of_fuel, messages_sent, [], script⟩
  | fuel + 1, k, script, messages_sent =>
    if running k then
      let o := send_message_twocopy field_size script
      match o.ret with
      | none => ⟨.blocked, messages_sent, o.calls, o.rest⟩
      | some result =>
        if result < 0 then ⟨.send_error, messages_sent, o.calls, o.rest⟩
        else
          let h := handler_loop field_size running fuel (k + 1) o.rest (messages_sent + 1)
          { h with calls := o.calls ++ h.calls }
    else ⟨.stopped, messages_sent, [], script⟩

/-- The function `client_handler` (lines 188-224): the allocation of the
message, then the send loop.  Every iteration that does not leave the loop
consumes `send` results, so `sends.length + 1` iterations are never
exceeded. -/
def client_handler (message_size : Int) (msg_ok : Bool) (field_ok : Nat → Bool)
    (running : Nat → Bool) (sends : List SendResult) : Handler :=
  match allocate_message message_size msg_ok field_ok with
  | none => ⟨.alloc_failed, 0, [], sends⟩
  | some _ => handler_loop message_size running (sends.length + 1) 0 sends 0

end A1_Server

/-! ## One-copy client (`MT25190_Part_A2_Client.c`) -/

namespace A2_Client

def NUM_FIELDS : Nat := 8

/-- The function `receive_message_onecopy(sockfd, iov, iovcnt)`: one `recvmsg`
call, whose result `r` is returned as it is. -/
def receive_message_onecopy (r : RecvResult) : Int :=
  let received := r.ret
  received

/-- The loop `while (running)` of `client_thread` (lines 98-109): one call of
`receive_message_onecopy` per iteration; a result `<= 0` leaves the loop, any
positive result is added to `bytes_received` and counts one message.  The
`buffer` of the worker stands for the eight buffers of the `iovec`, in
order. -/
def client_loop (message_size run_duration : Int) (env : ClientEnv) :
    List RecvResult → Worker → Exit × Worker
  | [], w =>
    let w0 : Worker := { w with running := w.running && !env.others w.heads, heads := w.heads + 1 }
    if w0.running then (.blocked, { w0 with script := [] })
    else (.stopped, { w0 with script := [] })
  | r :: rest, w =>
    let w0 : Worker := { w with running := w.running && !env.others w.heads, heads := w.heads + 1 }
    if w0.running then
      let received := receive_message_onecopy r
      let w1 : Worker :=
        { w0 with buffer := writeAt w0.buffer 0 r.chunk, script := rest,
                  fields := w0.fields ++ [received],
                  calls := w0.calls ++ [(0, NUM_FIELDS * to_size_t message_size)] }
      if received ≤ 0 then (if received = 0 then .closed else .recv_error, w1)
      else
        let w2 : Worker :=
          { w1 with stats := { w1.stats with bytes_received := w1.stats.bytes_received + received } }
        let w3 : Worker :=
          { w2 with stats := { w2.stats with messages_received := w2.stats.messages_received + 1 } }
        let elapsed := env.clock w3.ticks
        let w4 : Worker := { w3 with ticks := w3.ticks + 1 }
        if elapsed ≥ (run_duration : ℚ) then
          client_loop message_size run_duration env rest { w4 with running := false }
        else
          client_loop message_size run_duration env rest w4
    else (.stopped, { w0 with script := r :: rest })

/-- The function `client_thread` from the start of the timing on. -/
def client_thread (message_size run_duration : Int) (env : ClientEnv) (running : Bool)
    (buffer : List Nat) (script : List RecvResult) : Exit × Worker :=
  let r := client_loop message_size run_duration env script (Worker.start running buffer script)
  (r.1, r.2.finish env)

/-- The join loop of `main` (lines 158-168), from `aggregate = {0, 0, 0.0}`. -/
def aggregate (results : List (Option ThreadStats)) : ThreadStats :=
  results.foldl join_step ⟨0, 0, 0⟩

/-- What `pthread_join` obtains from a worker thread; `none` as input stands
for a worker whose setup failed, which returns `NULL`. -/
def thread_result (message_size run_duration : Int) :
    Option WorkerInput → Option (Option ThreadStats)
  | none => some none
  | some i => Worker.result (client_thread message_size run_duration i.env i.running i.buffer i.script)

/-- The function `main` from the creation of the workers to the aggregate it
reports; `none` when a worker never returns. -/
def main (message_size run_duration : Int) (workers : List (Option WorkerInput)) :
    Option ThreadStats :=
  (join_all (workers.map (thread_result message_size run_duration))).map aggregate

end A2_Client

/-! ## One-copy server (`MT25190_Part_A2_Server.c`) -/

namespace A2_Server

def NUM_FIELDS : Nat := 8

/-- A `struct iovec`; `iov_base` is given as the index of the field buffer it
points to. -/
structure IoVec where
  iov_base : Nat
  iov_len : Nat
  deriving DecidableEq, Repr

/-- The structure `MessageOneCopy`: the contents of the buffers `fields[i]` and
the array `iov`, both filled up to the index reached by the allocation. -/
structure MessageOneCopy where
  fields : List (List Nat)
  iov : List IoVec
  deriving DecidableEq, Repr

/-- The contents of `fields[i]` after `memset(msg->fields[i], 'A' + i,
field_size - 1)` and `msg->fields[i][field_size - 1] = 0`, for a
`field_size` of at least 1. -/
def field_content (field_size : Int) (i : Nat) : List Nat :=
  writeAt (List.replicate (field_size - 1).toNat (65 + i)) (field_size - 1).toNat [0]

/-- The `for` loop of `allocate_message_onecopy` with `n` iterations still to
run from index `i`; `aligned_ok i` tells whether the `aligned_alloc` for field
`i` succeeds. -/
def allocate_fields (field_size : Int) (aligned_ok : Nat → Bool) :
    Nat → Nat → MessageOneCopy → Option MessageOneCopy
  | 0, _, msg => some msg
  | n + 1, i, msg =>
    if aligned_ok i then
      allocate_fields field_size aligned_ok n (i + 1)
        { fields := msg.fields ++ [field_content field_size i],
          iov := msg.iov ++ [⟨i, to_size_t field_size⟩] }
    else none

/-- The function `allocate_message_onecopy(field_size)`; `none` is `NULL`. -/
def allocate_message_onecopy (field_size : Int) (malloc_ok : Bool) (aligned_ok : Nat → Bool) :
    Option MessageOneCopy :=
  if malloc_ok then allocate_fields field_size aligned_ok NUM_FIELDS 0 ⟨[], []⟩ else none

/-- The `struct msghdr` handed to a `sendmsg` call: its descriptor list and
the number of descriptors. -/
structure SendmsgCall where
  msg_iov : List IoVec
  msg_iovlen : Nat
  deriving DecidableEq, Repr

/-- What `send_message_onecopy` leaves behind: the `int` it returns, the
`sendmsg` calls it issued and the message after the call. -/
structure OneCopySend where
  ret : Int
  calls : List SendmsgCall
  msg : MessageOneCopy
  deriving DecidableEq, Repr

/-- The function `send_message_onecopy(sockfd, msg)`, where `r` is the result
of its `sendmsg` call. -/
def send_message_onecopy (msg : MessageOneCopy) (r : SendResult) : OneCopySend :=
  let msgh : SendmsgCall := ⟨msg.iov, NUM_FIELDS⟩
  let sent := r.ret
  if sent < 0 then ⟨-1, [msgh], msg⟩
  else ⟨to_int sent, [msgh], msg⟩

/-- What a server worker leaves behind. -/
structure Handler where
  exit : Exit
  messages_sent : Int
  calls : List SendmsgCall
  msg : Option MessageOneCopy
  rest : List SendResult
  deriving DecidableEq, Repr

/-- The loop `while (running)` of `client_handler` (lines 169-182).
`running k` is the value of the flag at the `k`-th evaluation of the loop
condition. -/
def handler_loop (running : Nat → Bool) :
    List SendResult → Nat → MessageOneCopy → Int → Handler
  | [], k, msg, messages_sent =>
    if running k then ⟨.blocked, messages_sent, [], some msg, []⟩
    else ⟨.stopped, messages_sent, [], some msg, []⟩
  | s :: rest, k, msg, messages_sent =>
    if running k then
      let r := send_message_onecopy msg s
      if r.ret < 0 then ⟨.send_error, messages_sent, r.calls, some r.msg, rest⟩
      else
        let h := handler_loop running rest (k + 1) r.msg (messages_sent + 1)
        { h with calls := r.calls ++ h.calls }
    else ⟨.stopped, messages_sent, [], some msg, s :: rest⟩

/-- The function `client_handler` (lines 155-190): the allocation of the
message, then the send loop. -/
def client_handler (message_size : Int) (malloc_ok : Bool) (aligned_ok : Nat → Bool)
    (running : Nat → Bool) (sends : List SendResult) : Handler :=
  match allocate_message_onecopy message_size malloc_ok aligned_ok with
  | none => ⟨.alloc_failed, 0, [], none, sends⟩
  | some msg => handler_loop running sends 0 msg 0

end A2_Server

/-! ## Zero-copy client (`MT25190_Part_A3_Client.c`) -/

namespace A3_Client

/-- The loop `while (running)` of `client_thread` (lines 63-74): one `recv` of
up to `message_size * 8` bytes per iteration; a result `<= 0` leaves the loop,
any positive result is added to `bytes_received` and counts one message. -/
def client_loop (message_size run_duration : Int) (env : ClientEnv) :
    List RecvResult → Worker → Exit × Worker
  | [], w =>
    let w0 : Worker := { w with running := w.running && !env.others w.heads, heads := w.heads + 1 }
    if w0.running then (.blocked, { w0 with script := [] })
    else (.stopped, { w0 with script := [] })
  | r :: rest, w =>
    let w0 : Worker := { w with running := w.running && !env.others w.heads, heads := w.heads + 1 }
    if w0.running then
      let w1 : Worker :=
        { w0 with buffer := writeAt w0.buffer 0 r.chunk, script := rest,
                  fields := w0.fields ++ [r.ret],
                  calls := w0.calls ++ [(0, to_size_t (message_size * 8))] }
      if r.ret ≤ 0 then (if r.ret = 0 then .closed else .recv_error, w1)
      else
        let w2 : Worker :=
          { w1 with stats := { w1.stats with bytes_received := w1.stats.bytes_received + r.ret } }
        let w3 : Worker :=
          { w2 with stats := { w2.stats with messages_received := w2.stats.messages_received + 1 } }
        let elapsed := env.clock w3.ticks
        let w4 : Worker := { w3 with ticks := w3.ticks + 1 }
        if elapsed ≥ (run_duration : ℚ) then
          client_loop message_size run_duration env rest { w4 with running := false }
        else
          client_loop message_size run_duration env rest w4
    else (.stopped, { w0 with script := r :: rest })

/-- The counters agree with the receive results recorded so far: one message
per positive result, and the byte count is their sum. -/
def Counted (w : Worker) : Prop :=
  w.stats.messages_received = ((w.fields.filter (fun x => decide (0 < x))).length : Int) ∧
  w.stats.bytes_received = (w.fields.filter (fun x => decide (0 < x))).sum

/-- The function `client_thread` from the start of the timing on. -/
def client_thread (message_size run_duration : Int) (env : ClientEnv) (running : Bool)
    (buffer : List Nat) (script : List RecvResult) : Exit × Worker :=
  let r := client_loop message_size run_duration env script (Worker.start running buffer script)
  (r.1, r.2.finish env)

/-- The join loop of `main` (lines 115-125), from `aggregate = {0, 0, 0.0}`. -/
def aggregate (results : List (Option ThreadStats)) : ThreadStats :=
  results.foldl join_step ⟨0, 0, 0⟩

/-- What `pthread_join` obtains from a worker thread; `none` as input stands
for a worker whose setup failed, which returns `NULL`. -/
def thread_result (message_size run_duration : Int) :
    Option WorkerInput → Option (Option ThreadStats)
  | none => some none
  | some i => Worker.result (client_thread message_size run_duration i.env i.running i.buffer i.script)

/-- The function `main` from the creation of the workers to the aggregate it
reports; `none` when a worker never returns. -/
def main (message_size run_duration : Int) (workers : List (Option WorkerInput)) :
    Option ThreadStats :=
  (join_all (workers.map (thread_result message_size run_duration))).map aggregate

end A3_Client

/-! ## Zero-copy server (`MT25190_Part_A3_Server.c`) -/

namespace A3_Server

def SOL_IP : Int := 0
def IP_RECVERR : Int := 11
def SO_EE_ORIGIN_ZEROCOPY : Int := 5

/-- The first control message of a notification (`CMSG_FIRSTHDR`) with the
`sock_extended_err` it carries. -/
structure Cmsg where
  cmsg_level : Int
  cmsg_type : Int
  ee_errno : Int
  ee_origin : Int
  ee_info : Nat
  ee_data : Nat
  deriving DecidableEq, Repr

/-- Result of one `recvmsg(sockfd, &msg, MSG_ERRQUEUE | MSG_DONTWAIT)`: the
value returned, `errno`, and the first control message if there is one. -/
structure ErrqRead where
  ret : Int
  errno : Int
  cm : Option Cmsg
  deriving DecidableEq, Repr

/-- The read that finds the error queue empty. -/
def would_block : ErrqRead := ⟨-1, EAGAIN, none⟩

/-- The test the source makes on a notification it has read (lines 64 and 66):
a zero-copy completion with non-error status. -/
def completion_confirmed (r : ErrqRead) : Bool :=
  match r.cm with
  | none => false
  | some cm =>
    if cm.cmsg_level = SOL_IP ∧ cm.cmsg_type = IP_RECVERR then
      if cm.ee_errno = 0 ∧ cm.ee_origin = SO_EE_ORIGIN_ZEROCOPY then true else false
    else false

/-- The function `drain_zerocopy_completions(sockfd)`: the loop `while (1)`
over the script of the notification channel, whose exhausted script reads as
an empty queue (`EAGAIN`).  The value of each `recvmsg` is stored in
`int ret`, hence narrowed, before it is tested.  Returns the reads it
performed and the unread part of the script; the function itself is `void`,
and the bodies of the two `if`s that parse a notification are empty. -/
def drain_zerocopy_completions : List ErrqRead → List ErrqRead × List ErrqRead
  | [] => ([would_block], [])
  | r :: rest =>
    let ret := to_int r.ret
    if ret < 0 then
      if r.errno = EAGAIN ∨ r.errno = EWOULDBLOCK then ([r], rest)
      else ([r], rest)
    else
      let _confirmed := completion_confirmed r
      (r :: (drain_zerocopy_completions rest).1, (drain_zerocopy_completions rest).2)

/-- The system-call level events of a server worker. -/
inductive ZcEvent where
  | send (len : Nat) (ret : Int)
  | drain (reads : List ErrqRead)
  deriving DecidableEq, Repr

/-- Whether an event is a `send` call. -/
def ZcEvent.is_send : ZcEvent → Bool
  | .send _ _ => true
  | .drain _ => false

/-- A notification reporting a failed zero-copy operation (`ee_errno = ENOBUFS`). -/
def failed_completion : ErrqRead :=
  ⟨0, 0, some ⟨SOL_IP, IP_RECVERR, 105, SO_EE_ORIGIN_ZEROCOPY, 0, 0⟩⟩

/-- What `send_zerocopy` leaves behind: the `int` it returns, the events it
caused and the unread part of the notification script. -/
structure ZcSend where
  ret : Int
  events : List ZcEvent
  errq : List ErrqRead
  deriving DecidableEq, Repr

/-- The function `send_zerocopy(sockfd, msg)`, where `size` is `msg->size` and
`s` is the result of its `send` call. -/
def send_zerocopy (size : Nat) (s : SendResult) (errq : List ErrqRead) : ZcSend :=
  let sent := s.ret
  if sent > 0 then
    let d := drain_zerocopy_completions errq
    ⟨to_int sent, [.send size sent, .drain d.1], d.2⟩
  else ⟨to_int sent, [.send size sent], errq⟩

/-- What the send loop of a server worker leaves behind. -/
structure Handler where
  exit : Exit
  messages_sent : Int
  trace : List ZcEvent
  errq : List ErrqRead
  rest : List SendResult
  deriving DecidableEq, Repr

/-- The loop `while (running)` of `client_handler` (lines 156-163).
`running k` is the value of the flag at the `k`-th evaluation of the loop
condition (a signal handler may clear it at any time). -/
def handler_loop (size : Nat) (running : Nat → Bool) :
    List SendResult → Nat → List ErrqRead → Int → Handler
  | [], k, errq, messages_sent =>
    if running k then ⟨.blocked, messages_sent, [], errq, []⟩
    else ⟨.stopped, messages_sent, [], errq, []⟩
  | s :: rest, k, errq, messages_sent =>
    if running k then
      let r := send_zerocopy size s errq
      if r.ret < 0 then ⟨.send_error, messages_sent, r.events, r.errq, rest⟩
      else
        let h := handler_loop size running rest (k + 1) r.errq (messages_sent + 1)
        { h with trace := r.events ++ h.trace }
    else ⟨.stopped, messages_sent, [], errq, s :: rest⟩

/-- In a trace, a `send` is directly followed by a drain of the notification
channel exactly when it returned a positive count. -/
def Drained (tr : List ZcEvent) : Prop :=
  ∀ (pre post : List ZcEvent) (len : Nat) (ret : Int),
    tr = pre ++ ZcEvent.send len ret :: post →
    (0 < ret ↔ ∃ reads post1, post = ZcEvent.drain reads :: post1)

/-- The trace is empty or begins with a `send`. -/
def SendFirst (tr : List ZcEvent) : Prop :=
  tr = [] ∨ ∃ len ret t, tr = ZcEvent.send len ret :: t

/-- The function `client_handler` from `messages_sent = 0` on, for a message
of `size` bytes. -/
def client_handler (size : Nat) (running : Nat → Bool) (sends : List SendResult)
    (errq : List ErrqRead) : Handler :=
  handler_loop size running sends 0 errq 0

/-- The structure `ZeroCopyMessage`. -/
structure ZeroCopyMessage where
  buffer : List Nat
  size : Nat
  deriving DecidableEq, Repr

/-- The function `allocate_zerocopy_message(size)`; `none` is `NULL`.  A
failing `mlock` is only reported. -/
def allocate_zerocopy_message (size : Nat) (malloc_ok aligned_ok : Bool) :
    Option ZeroCopyMessage :=
  if !malloc_ok then none
  else if !aligned_ok then none
  else some ⟨writeAt (List.replicate (size - 1) 90) (size - 1) [0], size⟩

/-- The function `client_handler` from its first statement (lines 147-170):
the message is allocated and handed to the send loop without a test of the
pointer.  With a null message and the flag set, the first `send_zerocopy`
evaluates `msg->buffer` on the null pointer; with the flag cleared the loop is
skipped and `free_zerocopy_message` ignores the null pointer. -/
def client_handler_full (message_size : Int) (malloc_ok aligned_ok : Bool)
    (running : Nat → Bool) (sends : List SendResult) (errq : List ErrqRead) : Handler :=
  match allocate_zerocopy_message (to_size_t (message_size * 8)) malloc_ok aligned_ok with
  | some msg => client_handler msg.size running sends errq
  | none =>
    if running 0 then ⟨.null_deref, 0, [], errq, sends⟩
    else ⟨.stopped, 0, [], errq, sends⟩

end A3_Server

/-! ## Properties of the two-copy client -/

namespace A1_Client


theorem to_ssize_t_of_lt (n : Nat) (h : n < 2 ^ 63) : to_ssize_t n = (n : Int) := by
  have h1 : n % 2 ^ 64 = n := Nat.mod_eq_of_lt (by omega)
  unfold to_ssize_t
  rw [h1, if_pos h]

theorem receive_loop_satisfied (size : Nat) (script : List RecvResult) (total : Nat)
    (buffer : List Nat) (calls : List (Nat × Nat)) (h : ¬ total < size) :
    receive_loop size script total buffer calls
      = some ⟨to_ssize_t total, buffer, calls, script⟩ := by
  cases script <;> simp [receive_loop, h]

/-- Chunked delivery: from any loop state, positive chunks that add up to the
outstanding bytes are consumed one `recv` call each, and the loop then returns. -/
theorem receive_loop_chunks (size : Nat) (hsize : size < 2 ^ 64) (rest : List RecvResult)
    (chunks : List (List Nat)) :
    ∀ (total : Nat) (buffer : List Nat) (calls : List (Nat × Nat)),
      (∀ c ∈ chunks, 0 < c.length) →
      total + (chunks.map List.length).sum = size →
      ∃ buffer1 calls1,
        receive_loop size (chunks.map RecvResult.bytes ++ rest) total buffer calls
          = some ⟨to_ssize_t size, buffer1, calls1, rest⟩ ∧
        calls1.length = calls.length + chunks.length := by
  induction chunks with
  | nil =>
    intro total buffer calls _ hsum
    simp only [List.map_nil, List.sum_nil, Nat.add_zero] at hsum
    refine ⟨buffer, calls, ?_, by simp⟩
    subst hsum
    simpa using receive_loop_satisfied total rest total buffer calls (by omega)
  | cons c cs ih =>
    intro total buffer calls hpos hsum
    have hc : 0 < c.length := hpos c (List.mem_cons_self _ _)
    simp only [List.map_cons, List.sum_cons] at hsum
    have hlt : total < size := by omega
    have hmod : (total + c.length) % 2 ^ 64 = total + c.length :=
      Nat.mod_eq_of_lt (by omega)
    obtain ⟨b1, c1, h1, h2⟩ := ih (total + c.length) (writeAt buffer total c)
      (calls ++ [(total, size - total)])
      (fun x hx => hpos x (List.mem_cons_of_mem _ hx)) (by omega)
    refine ⟨b1, c1, ?_, ?_⟩
    · have hr0 : ¬ ((c.length : Int) < 0) := by omega
      have hr1 : ¬ ((c.length : Int) = 0) := by omega
      simp only [List.map_cons, List.cons_append, receive_loop, if_pos hlt, RecvResult.ret,
        RecvResult.chunk, if_neg hr0, if_neg hr1, Int.toNat_ofNat, hmod]
      exact h1
    · rw [h2]; simp; omega

/-- C1: for every field size S > 0 (in the range of the `ssize_t` return type)
and every delivery of the field in positive chunks that add up to S,
`receive_data(sock, buffer, S)` returns exactly S, having issued exactly one
`recv` call per chunk and consumed nothing after the S-th byte. -/
theorem receive_data_chunked (S : Nat) (buffer : List Nat) (chunks : List (List Nat))
    (rest : List RecvResult) (hS : 0 < S) (hrange : S < 2 ^ 63)
    (hpos : ∀ c ∈ chunks, 0 < c.length)
    (hsum : (chunks.map List.length).sum = S) :
    ∃ o, receive_data S buffer (chunks.map RecvResult.bytes ++ rest) = some o ∧
      o.ret = (S : Int) ∧ o.calls.length = chunks.length ∧ o.rest = rest := by
  obtain ⟨b1, c1, h1, h2⟩ := receive_loop_chunks S (by omega) rest chunks 0 buffer []
    hpos (by omega)
  refine ⟨_, h1, ?_, ?_, rfl⟩
  · exact to_ssize_t_of_lt S hrange
  · simpa using h2

theorem receive_data_chunked_witness :
    ∃ o, receive_data 5 [] ([[1, 2], [3], [4, 5]].map RecvResult.bytes ++ [RecvResult.bytes [9]])
        = some o ∧
      o.ret = ((5 : Nat) : Int) ∧ o.calls.length = [[1, 2], [3], [4, 5]].length ∧
      o.rest = [RecvResult.bytes [9]] :=
  receive_data_chunked 5 [] [[1, 2], [3], [4, 5]] [RecvResult.bytes [9]] (by decide)
    (by norm_num) (by decide) (by decide)

/-- C2 (the code diverges): with field size 4, the peer closes after 2 bytes of
the first field.  `receive_data` returns the plain count 2, a positive value
like any other, and the worker adds it to `bytes_received` and goes on to the
next field: the values it got from `receive_data` are 2 and then 0, and the
2 bytes stay counted. -/
theorem short_field_counted :
    (receive_data 4 [] [.bytes [1, 2], .bytes []]).map RecvOutcome.ret = some 2 ∧
    (client_thread 4 30 quiet true [] [.bytes [1, 2], .bytes [], .bytes []]).2.fields = [2, 0] ∧
    (client_thread 4 30 quiet true [] [.bytes [1, 2], .bytes [], .bytes []]).2.stats.bytes_received
      = 2 := by
  decide

/-- C4 (the code diverges): with `message_size = 2`, seven whole fields arrive,
then one byte of the eighth, then the peer closes.  The worker counts a
message although only 15 of the 16 bytes were read for it, so
`bytes_received < 8 * message_size * messages_received`. -/
theorem message_counted_short :
    (client_thread 2 30 quiet true []
      [.bytes [1, 1], .bytes [2, 2], .bytes [3, 3], .bytes [4, 4], .bytes [5, 5], .bytes [6, 6],
       .bytes [7, 7], .bytes [8], .bytes [], .bytes []]).2.stats.messages_received = 1 ∧
    (client_thread 2 30 quiet true []
      [.bytes [1, 1], .bytes [2, 2], .bytes [3, 3], .bytes [4, 4], .bytes [5, 5], .bytes [6, 6],
       .bytes [7, 7], .bytes [8], .bytes [], .bytes []]).2.stats.bytes_received = 15 ∧
    (15 : Int) < 8 * 2 * 1 := by
  decide

end A1_Client

/-! ## Properties of the two-copy server -/

namespace A1_Server

theorem length_eight {α : Type} (l : List α) (h : l.length = 8) :
    ∃ a b c d e f g k, l = [a, b, c, d, e, f, g, k] := by
  rcases l with _ | ⟨a, _ | ⟨b, _ | ⟨c, _ | ⟨d, _ | ⟨e, _ | ⟨f, _ | ⟨g, _ | ⟨k, _ | ⟨x, t⟩⟩⟩⟩⟩⟩⟩⟩⟩ <;>
    simp at h
  exact ⟨a, b, c, d, e, f, g, k, rfl⟩

/-- C3 as stated fails: with field size 4 and a first `send` that transfers a
single byte, eight calls are issued and 29 bytes are transmitted, not 32; the
three missing bytes of field1 are never retried. -/
theorem short_write_not_retried :
    (send_message_twocopy 4
      [⟨1, 0⟩, ⟨4, 0⟩, ⟨4, 0⟩, ⟨4, 0⟩, ⟨4, 0⟩, ⟨4, 0⟩, ⟨4, 0⟩, ⟨4, 0⟩]).total_sent ≠ 8 * 4 ∧
    (send_message_twocopy 4
      [⟨1, 0⟩, ⟨4, 0⟩, ⟨4, 0⟩, ⟨4, 0⟩, ⟨4, 0⟩, ⟨4, 0⟩, ⟨4, 0⟩, ⟨4, 0⟩]).calls.length = 8 := by
  decide

/-- C3 (amended): for every field size S > 0 and eight `send` results none of
which reports an error (each between 0 and S), `send_message_twocopy` issues
exactly one `send` per field, field1 to field8, each requesting S bytes, and
transmits the sum of the eight byte counts; that is 8×S exactly when every call
transferred its whole field. -/
theorem send_message_twocopy_total (S : Int) (rs rest : List SendResult) (_hS : 0 < S)
    (hlen : rs.length = 8) (hok : ∀ r ∈ rs, 0 ≤ r.ret ∧ r.ret ≤ S) :
    (send_message_twocopy S (rs ++ rest)).calls
        = [(1, to_size_t S), (2, to_size_t S), (3, to_size_t S), (4, to_size_t S),
           (5, to_size_t S), (6, to_size_t S), (7, to_size_t S), (8, to_size_t S)] ∧
    (send_message_twocopy S (rs ++ rest)).total_sent = (rs.map SendResult.ret).sum ∧
    (send_message_twocopy S (rs ++ rest)).ret = some (to_int (rs.map SendResult.ret).sum) ∧
    (send_message_twocopy S (rs ++ rest)).rest = rest ∧
    ((send_message_twocopy S (rs ++ rest)).total_sent = 8 * S ↔ ∀ r ∈ rs, r.ret = S) := by
  obtain ⟨a, b, c, d, e, f, g, k, rfl⟩ := length_eight rs hlen
  simp only [List.mem_cons, List.mem_singleton, forall_eq_or_imp, forall_eq, List.not_mem_nil,
    false_imp_iff, implies_true, and_true] at hok ⊢
  obtain ⟨ha, hb, hc, hd, he, hf, hg, hk⟩ := hok
  have na : ¬ a.ret < 0 := by omega
  have nb : ¬ b.ret < 0 := by omega
  have nc : ¬ c.ret < 0 := by omega
  have nd : ¬ d.ret < 0 := by omega
  have ne : ¬ e.ret < 0 := by omega
  have nf : ¬ f.ret < 0 := by omega
  have ng : ¬ g.ret < 0 := by omega
  have nk : ¬ k.ret < 0 := by omega
  simp [send_message_twocopy, send_fields, send_field, bind, Except.bind, na, nb, nc, nd, ne,
    nf, ng, nk]
  refine ⟨by ring, by congr 1; ring, ?_⟩
  constructor
  · intro h; omega
  · intro h; omega

theorem send_message_twocopy_total_witness :
    (send_message_twocopy 4
        ([⟨4, 0⟩, ⟨4, 0⟩, ⟨2, 0⟩, ⟨4, 0⟩, ⟨4, 0⟩, ⟨4, 0⟩, ⟨4, 0⟩, ⟨4, 0⟩] ++ [⟨4, 0⟩])).total_sent
      = ([⟨4, 0⟩, ⟨4, 0⟩, ⟨2, 0⟩, ⟨4, 0⟩, ⟨4, 0⟩, ⟨4, 0⟩, ⟨4, 0⟩, ⟨4, 0⟩].map
          SendResult.ret).sum :=
  (send_message_twocopy_total 4 [⟨4, 0⟩, ⟨4, 0⟩, ⟨2, 0⟩, ⟨4, 0⟩, ⟨4, 0⟩, ⟨4, 0⟩, ⟨4, 0⟩, ⟨4, 0⟩]
    [⟨4, 0⟩] (by decide) (by decide) (by decide)).2.1

end A1_Server

/-! ## Properties of the zero-copy client -/

namespace A3_Client

theorem client_loop_counted (message_size run_duration : Int) (env : ClientEnv)
    (script : List RecvResult) :
    ∀ w : Worker, Counted w →
      Counted (client_loop message_size run_duration env script w).2 := by
  induction script with
  | nil =>
    intro w hw
    simp only [client_loop]
    split_ifs <;> exact hw
  | cons r rest ih =>
    intro w hw
    obtain ⟨hm, hb⟩ := hw
    simp only [client_loop]
    split_ifs with h1 h2 h3 h4
    · refine ⟨?_, ?_⟩ <;> simp [List.filter_append, List.filter_cons, not_lt.mpr h2, hm, hb]
    · refine ⟨?_, ?_⟩ <;> simp [List.filter_append, List.filter_cons, not_lt.mpr h2, hm, hb]
    · apply ih
      have h0 : 0 < r.ret := by omega
      refine ⟨?_, ?_⟩ <;> simp [List.filter_append, List.filter_cons, h0, hm, hb]
    · apply ih
      have h0 : 0 < r.ret := by omega
      refine ⟨?_, ?_⟩ <;> simp [List.filter_append, List.filter_cons, h0, hm, hb]
    · exact ⟨hm, hb⟩

theorem client_loop_fields (message_size run_duration : Int) (env : ClientEnv)
    (script : List RecvResult) :
    ∀ w : Worker, ∃ n,
      (client_loop message_size run_duration env script w).2.fields
        = w.fields ++ (script.take n).map RecvResult.ret ∧
      (client_loop message_size run_duration env script w).2.script = script.drop n := by
  induction script with
  | nil =>
    intro w
    refine ⟨0, ?_⟩
    simp only [client_loop]
    split_ifs <;> simp
  | cons r rest ih =>
    intro w
    simp only [client_loop]
    split_ifs with h1 h2 h3 h4
    · exact ⟨1, by simp⟩
    · exact ⟨1, by simp⟩
    · obtain ⟨n, hn1, hn2⟩ := ih
        { stats := ⟨w.stats.bytes_received + r.ret, w.stats.messages_received + 1,
            w.stats.elapsed_time⟩,
          running := false, buffer := writeAt w.buffer 0 r.chunk, script := rest,
          fields := w.fields ++ [r.ret],
          calls := w.calls ++ [(0, to_size_t (message_size * 8))],
          heads := w.heads + 1, ticks := w.ticks + 1 }
      exact ⟨n + 1, by simpa using hn1, by simpa using hn2⟩
    · obtain ⟨n, hn1, hn2⟩ := ih
        { stats := ⟨w.stats.bytes_received + r.ret, w.stats.messages_received + 1,
            w.stats.elapsed_time⟩,
          running := (w.running && !env.others w.heads), buffer := writeAt w.buffer 0 r.chunk,
          script := rest, fields := w.fields ++ [r.ret],
          calls := w.calls ++ [(0, to_size_t (message_size * 8))],
          heads := w.heads + 1, ticks := w.ticks + 1 }
      exact ⟨n + 1, by simpa using hn1, by simpa using hn2⟩
    · exact ⟨0, by simp⟩

/-- C5 as stated fails: with `message_size = 1024` a single `recv` that returns
one byte is counted as a message, 1 byte read instead of 8192. -/
theorem short_recv_counts_message :
    (client_thread 1024 30 quiet true [] [.bytes [90], .bytes []]).2.stats.messages_received = 1 ∧
    (client_thread 1024 30 quiet true [] [.bytes [90], .bytes []]).2.stats.bytes_received = 1 ∧
    (1 : Int) ≠ 8 * 1024 := by
  decide

/-- C5 (amended): in the zero-copy client worker, for every sequence of `recv`
results, the worker issues one `recv` per result it consumes, in order, a
message is counted for each call that returns a positive byte count, whatever
that count, and `bytes_received` is the sum of those counts. -/
theorem message_per_positive_recv (message_size run_duration : Int) (env : ClientEnv)
    (running : Bool) (buffer : List Nat) (script : List RecvResult) :
    (∃ n, (client_thread message_size run_duration env running buffer script).2.fields
        = (script.take n).map RecvResult.ret ∧
      (client_thread message_size run_duration env running buffer script).2.script
        = script.drop n) ∧
    (client_thread message_size run_duration env running buffer script).2.stats.messages_received
      = (((client_thread message_size run_duration env running buffer script).2.fields.filter
          (fun x => decide (0 < x))).length : Int) ∧
    (client_thread message_size run_duration env running buffer script).2.stats.bytes_received
      = ((client_thread message_size run_duration env running buffer script).2.fields.filter
          (fun x => decide (0 < x))).sum := by
  have h1 := client_loop_fields message_size run_duration env script
    (Worker.start running buffer script)
  have h2 := client_loop_counted message_size run_duration env script
    (Worker.start running buffer script) (by simp [Counted, Worker.start])
  obtain ⟨n, hn1, hn2⟩ := h1
  refine ⟨⟨n, ?_, ?_⟩, ?_, ?_⟩
  · simpa [client_thread, Worker.finish, Worker.start] using hn1
  · simpa [client_thread, Worker.finish] using hn2
  · simpa [client_thread, Worker.finish] using h2.1
  · simpa [client_thread, Worker.finish] using h2.2

end A3_Client

/-! ## Properties of the zero-copy server -/

namespace A3_Server

theorem to_int_of_range (x : Int) (h1 : -2 ^ 31 ≤ x) (h2 : x < 2 ^ 31) : to_int x = x := by
  unfold to_int
  omega

theorem drained_nil : Drained [] := by
  intro pre post len ret h
  simp at h

theorem drained_send_drain (t : List ZcEvent) (len0 : Nat) (ret0 : Int) (d : List ErrqRead)
    (h0 : 0 < ret0) (ht : Drained t) :
    Drained (ZcEvent.send len0 ret0 :: ZcEvent.drain d :: t) := by
  intro pre post len ret h
  cases pre with
  | nil =>
    simp only [List.nil_append, List.cons.injEq, ZcEvent.send.injEq] at h
    obtain ⟨⟨_, hr⟩, hp⟩ := h
    constructor
    · intro _; exact ⟨d, t, hp.symm⟩
    · intro _; omega
  | cons e pre1 =>
    cases pre1 with
    | nil => simp at h
    | cons e1 pre2 =>
      simp only [List.cons_append, List.cons.injEq] at h
      exact ht pre2 post len ret h.2.2

theorem drained_send_nonpositive (t : List ZcEvent) (len0 : Nat) (ret0 : Int) (h0 : ¬ 0 < ret0)
    (hs : SendFirst t) (ht : Drained t) : Drained (ZcEvent.send len0 ret0 :: t) := by
  intro pre post len ret h
  cases pre with
  | nil =>
    simp only [List.nil_append, List.cons.injEq, ZcEvent.send.injEq] at h
    obtain ⟨⟨_, hr⟩, hp⟩ := h
    constructor
    · intro hpos; omega
    · rintro ⟨reads, post1, hpost⟩
      rw [hpost] at hp
      rcases hs with hs | ⟨l, r, t1, hs⟩
      · rw [hs] at hp; simp at hp
      · rw [hs] at hp; simp at hp
  | cons e pre1 =>
    simp only [List.cons_append, List.cons.injEq] at h
    exact ht pre1 post len ret h.2

theorem events_send_first (size : Nat) (s : SendResult) (errq : List ErrqRead)
    (t : List ZcEvent) : SendFirst ((send_zerocopy size s errq).events ++ t) := by
  simp only [send_zerocopy]
  split_ifs
  · exact Or.inr ⟨size, s.ret, _, rfl⟩
  · exact Or.inr ⟨size, s.ret, _, rfl⟩

theorem drained_events (size : Nat) (s : SendResult) (errq : List ErrqRead) (t : List ZcEvent)
    (hs : SendFirst t) (ht : Drained t) :
    Drained ((send_zerocopy size s errq).events ++ t) := by
  unfold send_zerocopy
  by_cases h : s.ret > 0
  · simpa [h] using drained_send_drain t size s.ret _ h ht
  · simpa [h] using drained_send_nonpositive t size s.ret h hs ht

theorem handler_loop_drained (size : Nat) (running : Nat → Bool) (sends : List SendResult) :
    ∀ (k : Nat) (errq : List ErrqRead) (messages_sent : Int),
      SendFirst (handler_loop size running sends k errq messages_sent).trace ∧
      Drained (handler_loop size running sends k errq messages_sent).trace := by
  induction sends with
  | nil =>
    intro k errq messages_sent
    simp only [handler_loop]
    split_ifs <;> exact ⟨Or.inl rfl, drained_nil⟩
  | cons s rest ih =>
    intro k errq messages_sent
    simp only [handler_loop]
    split_ifs with h1 h2
    · exact ⟨by simpa using events_send_first size s errq [],
        by simpa using drained_events size s errq [] (Or.inl rfl) drained_nil⟩
    · obtain ⟨i1, i2⟩ := ih (k + 1) (send_zerocopy size s errq).errq (messages_sent + 1)
      exact ⟨events_send_first size s errq _, drained_events size s errq _ i1 i2⟩
    · exact ⟨Or.inl rfl, drained_nil⟩

theorem send_zerocopy_ret (size : Nat) (s : SendResult) (errq : List ErrqRead) :
    (send_zerocopy size s errq).ret = to_int s.ret := by
  simp only [send_zerocopy]
  split_ifs <;> rfl

theorem send_zerocopy_sends (size : Nat) (s : SendResult) (errq : List ErrqRead) :
    (send_zerocopy size s errq).events.filter ZcEvent.is_send = [ZcEvent.send size s.ret] := by
  simp only [send_zerocopy]
  split_ifs <;> simp [ZcEvent.is_send]

theorem handler_loop_ignores_errq (size : Nat) (running : Nat → Bool) (sends : List SendResult) :
    ∀ (k : Nat) (errq1 errq2 : List ErrqRead) (messages_sent : Int),
      (handler_loop size running sends k errq1 messages_sent).exit
        = (handler_loop size running sends k errq2 messages_sent).exit ∧
      (handler_loop size running sends k errq1 messages_sent).messages_sent
        = (handler_loop size running sends k errq2 messages_sent).messages_sent ∧
      (handler_loop size running sends k errq1 messages_sent).rest
        = (handler_loop size running sends k errq2 messages_sent).rest ∧
      (handler_loop size running sends k errq1 messages_sent).trace.filter ZcEvent.is_send
        = (handler_loop size running sends k errq2 messages_sent).trace.filter ZcEvent.is_send := by
  induction sends with
  | nil =>
    intro k errq1 errq2 messages_sent
    simp only [handler_loop]
    split_ifs <;> simp
  | cons s rest ih =>
    intro k errq1 errq2 messages_sent
    simp only [handler_loop, send_zerocopy_ret]
    split_ifs with h1 h2
    · simp [send_zerocopy_sends]
    · obtain ⟨i1, i2, i3, i4⟩ := ih (k + 1) (send_zerocopy size s errq1).errq
        (send_zerocopy size s errq2).errq (messages_sent + 1)
      refine ⟨i1, i2, i3, ?_⟩
      simp only [List.filter_append, send_zerocopy_sends, i4]
    · simp

/-- C6 (the code diverges): both sends succeed and the notification channel
answers every read with "would block".  The second `send` is issued although
the only read between the two sends found no completion. -/
theorem send_without_completion :
    (client_handler 8192 (fun _ => true) [⟨8192, 0⟩, ⟨8192, 0⟩]
        [would_block, would_block]).trace
      = [.send 8192 8192, .drain [would_block], .send 8192 8192, .drain [would_block]] ∧
    completion_confirmed would_block = false ∧
    (client_handler 8192 (fun _ => true) [⟨8192, 0⟩, ⟨8192, 0⟩]
        [would_block, would_block]).messages_sent = 2 := by
  decide

/-- C7 as stated fails: a `send` that returns 0 reports no error, yet the next
`send` follows it with no drain in between. -/
theorem zero_send_not_drained :
    (client_handler 8 (fun _ => true) [⟨0, 0⟩, ⟨8, 0⟩] []).trace
      = [.send 8 0, .send 8 8, .drain [would_block]] := by
  decide

/-- C7 (amended): in the zero-copy server worker, a `send` call is directly
followed by a call of `drain_zerocopy_completions`, before the next `send` is
issued, exactly when it returned a positive byte count: every `send` that
returns a positive count is followed by a drain, and a `send` that returns 0
(or reports an error) is not. -/
theorem send_drained_iff_positive (size : Nat) (running : Nat → Bool)
    (sends : List SendResult) (errq : List ErrqRead) (pre post : List ZcEvent) (len : Nat)
    (ret : Int)
    (h : (client_handler size running sends errq).trace = pre ++ ZcEvent.send len ret :: post) :
    0 < ret ↔ ∃ reads post1, post = ZcEvent.drain reads :: post1 :=
  (handler_loop_drained size running sends 0 errq 0).2 pre post len ret h

theorem send_drained_iff_positive_witness :
    ((0 : Int) < 8 ↔
      ∃ reads post1, [ZcEvent.drain [would_block]] = ZcEvent.drain reads :: post1) ∧
    ((0 : Int) < 0 ↔
      ∃ reads post1,
        [ZcEvent.send 8 8, ZcEvent.drain [would_block]] = ZcEvent.drain reads :: post1) :=
  ⟨send_drained_iff_positive 8 (fun _ => true) [⟨8, 0⟩, ⟨8, 0⟩] []
      [.send 8 8, .drain [would_block]] [.drain [would_block]] 8 8 (by decide),
    send_drained_iff_positive 8 (fun _ => true) [⟨0, 0⟩, ⟨8, 0⟩] [] []
      [.send 8 8, .drain [would_block]] 8 0 (by decide)⟩

/-- C8 as stated fails: the drain after the first `send` reads a completion
record with a non-zero error status, yet `send_zerocopy` returns the byte
count 8 and the worker issues the second `send`. -/
theorem failed_completion_not_fatal :
    completion_confirmed failed_completion = false ∧
    (send_zerocopy 8 ⟨8, 0⟩ [failed_completion]).ret = 8 ∧
    (client_handler 8 (fun _ => true) [⟨8, 0⟩, ⟨8, 0⟩] [failed_completion]).trace
      = [.send 8 8, .drain [failed_completion, would_block], .send 8 8, .drain [would_block]] := by
  decide

/-- C8 (amended): what the drain reads has no effect on the connection:
`send_zerocopy` returns the result of its `send` call whatever the
notification channel holds, and the worker's send loop ends the same way,
counts the same messages and issues the same `send` calls for any two
notification channels. -/
theorem completion_status_ignored (size : Nat) (running : Nat → Bool)
    (sends : List SendResult) (s : SendResult) (errq1 errq2 : List ErrqRead) :
    (send_zerocopy size s errq1).ret = to_int s.ret ∧
    (client_handler size running sends errq1).exit
      = (client_handler size running sends errq2).exit ∧
    (client_handler size running sends errq1).messages_sent
      = (client_handler size running sends errq2).messages_sent ∧
    (client_handler size running sends errq1).rest
      = (client_handler size running sends errq2).rest ∧
    (client_handler size running sends errq1).trace.filter ZcEvent.is_send
      = (client_handler size running sends errq2).trace.filter ZcEvent.is_send :=
  ⟨send_zerocopy_ret size s errq1, handler_loop_ignores_errq size running sends 0 errq1 errq2 0⟩

theorem drain_stops_on_narrowed_negative :
    drain_zerocopy_completions [⟨2147483648, 0, none⟩, ⟨0, 0, none⟩, would_block]
      = ([⟨2147483648, 0, none⟩], [⟨0, 0, none⟩, would_block]) := by
  decide

/-- C9: for a notification channel holding n pending completion records (reads
returning a count that an `int` holds) followed by a "would block" result,
`drain_zerocopy_completions` returns after exactly n+1 reads, the n records
and then the "would block", and leaves the rest of the channel unread. -/
theorem drain_reads_all_pending (records rest : List ErrqRead) (wb : ErrqRead)
    (hrec : ∀ r ∈ records, 0 ≤ r.ret ∧ r.ret < 2 ^ 31)
    (hwb : -2 ^ 31 ≤ wb.ret ∧ wb.ret < 0)
    (_hagain : wb.errno = EAGAIN ∨ wb.errno = EWOULDBLOCK) :
    (drain_zerocopy_completions (records ++ wb :: rest)).1 = records ++ [wb] ∧
    (drain_zerocopy_completions (records ++ wb :: rest)).1.length = records.length + 1 ∧
    (drain_zerocopy_completions (records ++ wb :: rest)).2 = rest := by
  induction records with
  | nil =>
    have hw : to_int wb.ret < 0 := by
      rw [to_int_of_range wb.ret hwb.1 (by omega)]
      exact hwb.2
    simp [drain_zerocopy_completions, hw]
  | cons r rs ih =>
    have hr : ¬ to_int r.ret < 0 := by
      have h := hrec r (List.mem_cons_self _ _)
      rw [to_int_of_range r.ret (by omega) h.2]
      omega
    obtain ⟨i1, i2, i3⟩ := ih (fun x hx => hrec x (List.mem_cons_of_mem _ hx))
    simp [drain_zerocopy_completions, hr, i1, i3]

theorem drain_reads_all_pending_witness :
    (drain_zerocopy_completions
        ([failed_completion, ⟨0, 0, none⟩] ++ would_block :: [failed_completion])).1
      = [failed_completion, ⟨0, 0, none⟩] ++ [would_block] ∧
    (drain_zerocopy_completions
        ([failed_completion, ⟨0, 0, none⟩] ++ would_block :: [failed_completion])).1.length
      = [failed_completion, (⟨0, 0, none⟩ : ErrqRead)].length + 1 ∧
    (drain_zerocopy_completions
        ([failed_completion, ⟨0, 0, none⟩] ++ would_block :: [failed_completion])).2
      = [failed_completion] :=
  drain_reads_all_pending [failed_completion, ⟨0, 0, none⟩] [failed_completion] would_block
    (by decide) (by decide) (by decide)

end A3_Server

/-! ## Properties of the statistics aggregation -/

/-- The join loop from any aggregate: the counts grow by the sums over the
workers that returned stats, and the elapsed time becomes the largest of the
previous value and the workers' values. -/
theorem foldl_join_step (results : List (Option ThreadStats)) :
    ∀ a : ThreadStats,
      (results.foldl join_step a).bytes_received
        = a.bytes_received + (results.reduceOption.map ThreadStats.bytes_received).sum ∧
      (results.foldl join_step a).messages_received
        = a.messages_received + (results.reduceOption.map ThreadStats.messages_received).sum ∧
      a.elapsed_time ≤ (results.foldl join_step a).elapsed_time ∧
      (∀ s ∈ results.reduceOption, s.elapsed_time ≤ (results.foldl join_step a).elapsed_time) ∧
      ((results.foldl join_step a).elapsed_time = a.elapsed_time ∨
        ∃ s ∈ results.reduceOption, s.elapsed_time = (results.foldl join_step a).elapsed_time) := by
  induction results with
  | nil => intro a; simp
  | cons r rs ih =>
    intro a
    cases r with
    | none =>
      simpa [List.reduceOption_cons_of_none, join_step] using ih a
    | some st =>
      obtain ⟨i1, i2, i3, i4, i5⟩ := ih (join_step a (some st))
      simp only [List.foldl_cons, List.reduceOption_cons_of_some, List.map_cons, List.sum_cons,
        List.mem_cons, forall_eq_or_imp, exists_eq_or_imp]
      by_cases hgt : st.elapsed_time > a.elapsed_time
      · have e1 : (join_step a (some st)).elapsed_time = st.elapsed_time := by
          simp [join_step, hgt]
        have e2 : (join_step a (some st)).bytes_received
            = a.bytes_received + st.bytes_received := by
          simp only [join_step]; split_ifs; rfl
        have e3 : (join_step a (some st)).messages_received
            = a.messages_received + st.messages_received := by
          simp only [join_step]; split_ifs; rfl
        rw [e1] at i3 i5
        rw [e2] at i1
        rw [e3] at i2
        refine ⟨by rw [i1]; ring, by rw [i2]; ring, le_trans (le_of_lt hgt) i3, ⟨i3, i4⟩, ?_⟩
        rcases i5 with h | h
        · exact Or.inr (Or.inl h.symm)
        · exact Or.inr (Or.inr h)
      · have e1 : (join_step a (some st)).elapsed_time = a.elapsed_time := by
          simp [join_step, hgt]
        have e2 : (join_step a (some st)).bytes_received
            = a.bytes_received + st.bytes_received := by
          simp only [join_step]; split_ifs; rfl
        have e3 : (join_step a (some st)).messages_received
            = a.messages_received + st.messages_received := by
          simp only [join_step]; split_ifs; rfl
        rw [e1] at i3 i5
        rw [e2] at i1
        rw [e3] at i2
        refine ⟨by rw [i1]; ring, by rw [i2]; ring, i3, ⟨le_trans (not_lt.mp hgt) i3, i4⟩, ?_⟩
        rcases i5 with h | h
        · exact Or.inl h
        · exact Or.inr (Or.inr h)

theorem foldl_join_step_reduction (results : List (Option ThreadStats))
    (hpos : ∀ s ∈ results.reduceOption, 0 ≤ s.elapsed_time) :
    IsReduction results.reduceOption (results.foldl join_step ⟨0, 0, 0⟩) := by
  obtain ⟨i1, i2, _, i4, i5⟩ := foldl_join_step results ⟨0, 0, 0⟩
  refine ⟨by simpa using i1, by simpa using i2, ?_, ?_, i4⟩
  · intro hnil
    rcases i5 with h | ⟨s, hs, _⟩
    · exact h
    · rw [hnil] at hs; simp at hs
  · intro hne
    rcases i5 with h | ⟨s, hs, he⟩
    · obtain ⟨s, hs⟩ := List.exists_mem_of_ne_nil _ hne
      have h1 := i4 s hs
      have h2 := hpos s hs
      rw [h] at h1
      have h3 : s.elapsed_time = 0 := le_antisymm h1 h2
      rw [h]
      exact List.mem_map.mpr ⟨s, hs, h3⟩
    · exact List.mem_map.mpr ⟨s, hs, he⟩

/-- C10: for every list of results handed to the join loop, workers that
returned no stats being skipped and elapsed times being non-negative (they are
differences of a monotonic clock), the aggregate has bytes = sum of the
workers' `bytes_received`, messages = sum of their `messages_received` and
elapsed = maximum of their `elapsed_time` (0 when there is none), in the
two-copy, the one-copy and the zero-copy client alike. -/
theorem aggregate_sums_and_max (results : List (Option ThreadStats))
    (hpos : ∀ s ∈ results.reduceOption, 0 ≤ s.elapsed_time) :
    IsReduction results.reduceOption (A1_Client.aggregate results) ∧
    IsReduction results.reduceOption (A2_Client.aggregate results) ∧
    IsReduction results.reduceOption (A3_Client.aggregate results) :=
  ⟨foldl_join_step_reduction results hpos, foldl_join_step_reduction results hpos,
    foldl_join_step_reduction results hpos⟩

theorem aggregate_sums_and_max_witness :
    IsReduction [⟨10, 1, 2⟩, ⟨30, 3, 5⟩, ⟨20, 2, 4⟩]
      (A1_Client.aggregate [some ⟨10, 1, 2⟩, none, some ⟨30, 3, 5⟩, some ⟨20, 2, 4⟩]) ∧
    (A1_Client.aggregate [some ⟨10, 1, 2⟩, none, some ⟨30, 3, 5⟩, some ⟨20, 2, 4⟩])
      = ⟨60, 6, 5⟩ :=
  ⟨(aggregate_sums_and_max [some ⟨10, 1, 2⟩, none, some ⟨30, 3, 5⟩, some ⟨20, 2, 4⟩]
      (by decide)).1, by decide⟩

theorem reduction_metrics (workers : List ThreadStats) (agg : ThreadStats)
    (hne : workers ≠ []) (h : IsReduction workers agg) : IsMetrics workers agg := by
  obtain ⟨hb, hm, _, hmem, hmax⟩ := h
  refine ⟨agg.elapsed_time, hmem hne, hmax, ?_, ?_⟩
  · simp only [throughput_gbps, hb]
  · simp only [latency_us, hm]

/-- C11: for every non-empty list of worker stats (elapsed times non-negative,
as differences of a monotonic clock are), the reported throughput_gbps is
total_bytes×8 / (max_elapsed×1e9) and latency_us is max_elapsed×1e6 /
total_messages, where max_elapsed is the maximum of the workers' elapsed times
and the totals are the sums, in exact arithmetic, in each of the clients. -/
theorem metrics_use_sums_and_max (results : List (Option ThreadStats))
    (hne : results.reduceOption ≠ [])
    (hpos : ∀ s ∈ results.reduceOption, 0 ≤ s.elapsed_time) :
    IsMetrics results.reduceOption (A1_Client.aggregate results) ∧
    IsMetrics results.reduceOption (A2_Client.aggregate results) ∧
    IsMetrics results.reduceOption (A3_Client.aggregate results) :=
  ⟨reduction_metrics _ _ hne (foldl_join_step_reduction results hpos),
    reduction_metrics _ _ hne (foldl_join_step_reduction results hpos),
    reduction_metrics _ _ hne (foldl_join_step_reduction results hpos)⟩

theorem metrics_use_sums_and_max_witness :
    IsMetrics [⟨1000, 10, 2⟩, ⟨3000, 30, 5⟩]
      (A1_Client.aggregate [some ⟨1000, 10, 2⟩, none, some ⟨3000, 30, 5⟩]) :=
  (metrics_use_sums_and_max [some ⟨1000, 10, 2⟩, none, some ⟨3000, 30, 5⟩]
    (by decide) (by decide)).1

theorem join_step_swap (z : ThreadStats) (x y : Option ThreadStats) :
    join_step (join_step z x) y = join_step (join_step z y) x := by
  cases x with
  | none => rfl
  | some a =>
    cases y with
    | none => rfl
    | some b =>
      have e1 : z.bytes_received + a.bytes_received + b.bytes_received
          = z.bytes_received + b.bytes_received + a.bytes_received := by ring
      have e2 : z.messages_received + a.messages_received + b.messages_received
          = z.messages_received + b.messages_received + a.messages_received := by ring
      simp only [join_step]
      split_ifs <;> simp only [ThreadStats.mk.injEq, e1, e2, true_and] <;> linarith

/-- C12: the aggregate is invariant under permutation of the worker results:
for every list of results and every reordering of it, the join loop yields the
same total bytes, total messages and maximum elapsed time, in each client. -/
theorem aggregate_perm (results reordered : List (Option ThreadStats))
    (h : results.Perm reordered) :
    A1_Client.aggregate results = A1_Client.aggregate reordered ∧
    A2_Client.aggregate results = A2_Client.aggregate reordered ∧
    A3_Client.aggregate results = A3_Client.aggregate reordered :=
  ⟨h.foldl_eq' (fun x _ y _ z => join_step_swap z x y) _,
    h.foldl_eq' (fun x _ y _ z => join_step_swap z x y) _,
    h.foldl_eq' (fun x _ y _ z => join_step_swap z x y) _⟩

theorem aggregate_perm_witness :
    A1_Client.aggregate [some ⟨10, 1, 2⟩, none, some ⟨30, 3, 5⟩]
        = A1_Client.aggregate [some ⟨30, 3, 5⟩, some ⟨10, 1, 2⟩, none] ∧
    A2_Client.aggregate [some ⟨10, 1, 2⟩, none, some ⟨30, 3, 5⟩]
        = A2_Client.aggregate [some ⟨30, 3, 5⟩, some ⟨10, 1, 2⟩, none] ∧
    A3_Client.aggregate [some ⟨10, 1, 2⟩, none, some ⟨30, 3, 5⟩]
        = A3_Client.aggregate [some ⟨30, 3, 5⟩, some ⟨10, 1, 2⟩, none] :=
  aggregate_perm [some ⟨10, 1, 2⟩, none, some ⟨30, 3, 5⟩]
    [some ⟨30, 3, 5⟩, some ⟨10, 1, 2⟩, none] (by decide)

/-- C14 as stated fails: when no worker returned stats the aggregate is
`{0, 0, 0.0}` and both computations divide zero by zero; when workers ran for
two seconds without completing a message the latency divides by zero. -/
theorem metrics_divide_by_zero :
    throughput_gbps (A1_Client.aggregate [none, none]) = .nan ∧
    latency_us (A1_Client.aggregate [none, none]) = .nan ∧
    latency_us (A2_Client.aggregate [some ⟨5, 0, 2⟩]) = .pos_inf := by
  have h1 : A1_Client.aggregate [none, none] = ⟨0, 0, 0⟩ := by decide
  have h2 : A2_Client.aggregate [some ⟨5, 0, 2⟩] = ⟨5, 0, 2⟩ := by decide
  rw [h1, h2]
  simp [throughput_gbps, latency_us, fdiv]

/-- C14 (amended): the computation of throughput_gbps divides by zero exactly
when the maximum elapsed time is 0, and that of latency_us exactly when the
total message count is 0; otherwise the values are finite numbers. -/
theorem metrics_finite_iff (aggregate : ThreadStats) :
    ((throughput_gbps aggregate).finite ↔ aggregate.elapsed_time ≠ 0) ∧
    ((latency_us aggregate).finite ↔ aggregate.messages_received ≠ 0) := by
  constructor
  · unfold throughput_gbps fdiv
    by_cases h : aggregate.elapsed_time = 0
    · simp only [h, zero_mul, if_true, ne_eq, not_true_eq_false, iff_false]
      split_ifs <;> simp [FVal.finite]
    · have h1 : aggregate.elapsed_time * 10 ^ 9 ≠ 0 := mul_ne_zero h (by norm_num)
      simp [h1, h, FVal.finite]
  · unfold latency_us fdiv
    by_cases h : aggregate.messages_received = 0
    · simp only [h, Int.cast_zero, if_true, ne_eq, not_true_eq_false, iff_false]
      split_ifs <;> simp [FVal.finite]
    · have h1 : (aggregate.messages_received : ℚ) ≠ 0 := Int.cast_ne_zero.mpr h
      simp [h1, h, FVal.finite]

/-! ## Properties of the client workers -/

namespace A1_Client

theorem field_loop_frame (message_size : Int) :
    ∀ (n : Nat) (w : Worker),
      (field_loop message_size n w).worker.stats.messages_received = w.stats.messages_received ∧
      (field_loop message_size n w).worker.stats.elapsed_time = w.stats.elapsed_time ∧
      (field_loop message_size n w).worker.running = w.running ∧
      (field_loop message_size n w).worker.ticks = w.ticks ∧
      w.stats.bytes_received ≤ (field_loop message_size n w).worker.stats.bytes_received ∧
      ((field_loop message_size n w).is_done = true →
        w.stats.bytes_received + n ≤ (field_loop message_size n w).worker.stats.bytes_received) := by
  intro n
  induction n with
  | zero => intro w; simp [field_loop, FieldLoop.worker]
  | succ n ih =>
    intro w
    simp only [field_loop]
    split
    · simp [FieldLoop.worker, FieldLoop.is_done]
    · rename_i o _
      split_ifs with h1 h2
      · simp [FieldLoop.worker, FieldLoop.is_done]
      · simp [FieldLoop.worker, FieldLoop.is_done]
      · obtain ⟨i1, i2, i3, i4, i5, i6⟩ := ih
          { stats := ⟨w.stats.bytes_received + o.ret, w.stats.messages_received,
              w.stats.elapsed_time⟩,
            running := w.running, buffer := o.buffer, script := o.rest,
            fields := w.fields ++ [o.ret], calls := w.calls ++ o.calls,
            heads := w.heads, ticks := w.ticks }
        simp only at i1 i2 i3 i4 i5 i6
        refine ⟨i1, i2, i3, i4, by omega, ?_⟩
        intro hd
        have := i6 hd
        push_cast
        omega

theorem twocopy_loop_sound (message_size run_duration : Int) (env : ClientEnv) :
    ∀ (fuel : Nat) (w : Worker),
      0 ≤ w.stats.messages_received → w.stats.messages_received ≤ w.stats.bytes_received →
      0 ≤ (client_loop message_size run_duration env fuel w).2.stats.messages_received ∧
      (client_loop message_size run_duration env fuel w).2.stats.messages_received
        ≤ (client_loop message_size run_duration env fuel w).2.stats.bytes_received := by
  intro fuel
  induction fuel with
  | zero => intro w h0 h1; exact ⟨h0, h1⟩
  | succ fuel ih =>
    intro w h0 h1
    have hf := field_loop_frame message_size 8
      { w with running := w.running && !env.others w.heads, heads := w.heads + 1 }
    simp only [client_loop]
    split_ifs with hr
    · cases hfl : field_loop message_size 8
          { w with running := w.running && !env.others w.heads, heads := w.heads + 1 } with
      | cleanup e w1 =>
        rw [hfl] at hf
        simp only [FieldLoop.worker] at hf
        obtain ⟨i1, _, _, _, i5, _⟩ := hf
        simp only
        constructor <;> omega
      | done w1 =>
        rw [hfl] at hf
        simp only [FieldLoop.worker, FieldLoop.is_done, forall_true_left] at hf
        obtain ⟨i1, _, _, _, _, i6⟩ := hf
        simp only
        split_ifs <;> (apply ih <;> simp only <;> omega)
    · exact ⟨h0, h1⟩

end A1_Client

namespace A1_Client

theorem twocopy_thread_sound (message_size run_duration : Int) (env : ClientEnv)
    (running : Bool) (buffer : List Nat) (script : List RecvResult)
    (hclock : ∀ k, 0 ≤ env.clock k) :
    Sound (client_thread message_size run_duration env running buffer script).2.stats := by
  obtain ⟨h0, h1⟩ := twocopy_loop_sound message_size run_duration env (script.length + 1)
    (Worker.start running buffer script) (by simp [Worker.start]) (by simp [Worker.start])
  exact ⟨h0, h1, hclock _⟩

end A1_Client

namespace A2_Client

theorem onecopy_loop_sound (message_size run_duration : Int) (env : ClientEnv)
    (script : List RecvResult) :
    ∀ w : Worker,
      0 ≤ w.stats.messages_received → w.stats.messages_received ≤ w.stats.bytes_received →
      0 ≤ (client_loop message_size run_duration env script w).2.stats.messages_received ∧
      (client_loop message_size run_duration env script w).2.stats.messages_received
        ≤ (client_loop message_size run_duration env script w).2.stats.bytes_received := by
  induction script with
  | nil =>
    intro w h0 h1
    simp only [client_loop]
    split_ifs <;> exact ⟨h0, h1⟩
  | cons r rest ih =>
    intro w h0 h1
    simp only [client_loop, receive_message_onecopy]
    split_ifs with h2 h3 h4 h5
    · exact ⟨h0, h1⟩
    · exact ⟨h0, h1⟩
    · apply ih <;> simp only <;> omega
    · apply ih <;> simp only <;> omega
    · exact ⟨h0, h1⟩

theorem onecopy_thread_sound (message_size run_duration : Int) (env : ClientEnv)
    (running : Bool) (buffer : List Nat) (script : List RecvResult)
    (hclock : ∀ k, 0 ≤ env.clock k) :
    Sound (client_thread message_size run_duration env running buffer script).2.stats := by
  obtain ⟨h0, h1⟩ := onecopy_loop_sound message_size run_duration env script
    (Worker.start running buffer script) (by simp [Worker.start]) (by simp [Worker.start])
  exact ⟨h0, h1, hclock _⟩

end A2_Client

namespace A3_Client

theorem zerocopy_loop_sound (message_size run_duration : Int) (env : ClientEnv)
    (script : List RecvResult) :
    ∀ w : Worker,
      0 ≤ w.stats.messages_received → w.stats.messages_received ≤ w.stats.bytes_received →
      0 ≤ (client_loop message_size run_duration env script w).2.stats.messages_received ∧
      (client_loop message_size run_duration env script w).2.stats.messages_received
        ≤ (client_loop message_size run_duration env script w).2.stats.bytes_received := by
  induction script with
  | nil =>
    intro w h0 h1
    simp only [client_loop]
    split_ifs <;> exact ⟨h0, h1⟩
  | cons r rest ih =>
    intro w h0 h1
    simp only [client_loop]
    split_ifs with h2 h3 h4 h5
    · exact ⟨h0, h1⟩
    · exact ⟨h0, h1⟩
    · apply ih <;> simp only <;> omega
    · apply ih <;> simp only <;> omega
    · exact ⟨h0, h1⟩

theorem zerocopy_thread_sound (message_size run_duration : Int) (env : ClientEnv)
    (running : Bool) (buffer : List Nat) (script : List RecvResult)
    (hclock : ∀ k, 0 ≤ env.clock k) :
    Sound (client_thread message_size run_duration env running buffer script).2.stats := by
  obtain ⟨h0, h1⟩ := zerocopy_loop_sound message_size run_duration env script
    (Worker.start running buffer script) (by simp [Worker.start]) (by simp [Worker.start])
  exact ⟨h0, h1, hclock _⟩

end A3_Client

theorem join_all_mem :
    ∀ (l : List (Option (Option ThreadStats))) (rs : List (Option ThreadStats)),
      join_all l = some rs → ∀ r ∈ rs, some r ∈ l := by
  intro l
  induction l with
  | nil =>
    intro rs h r hr
    simp only [join_all, Option.some.injEq] at h
    subst h
    simp at hr
  | cons a l ih =>
    intro rs h r hr
    cases a with
    | none => simp [join_all] at h
    | some x =>
      simp only [join_all, Option.map_eq_some'] at h
      obtain ⟨rs1, h1, rfl⟩ := h
      rcases List.mem_cons.mp hr with h2 | h2
      · subst h2; exact List.mem_cons_self _ _
      · exact List.mem_cons_of_mem _ (ih rs1 h1 r h2)

theorem sum_messages_le_bytes (ws : List ThreadStats) (h : ∀ s ∈ ws, Sound s) :
    (ws.map ThreadStats.messages_received).sum ≤ (ws.map ThreadStats.bytes_received).sum := by
  induction ws with
  | nil => simp
  | cons a l ih =>
    have ha := (h a (List.mem_cons_self _ _)).2.1
    have hl := ih (fun s hs => h s (List.mem_cons_of_mem _ hs))
    simp only [List.map_cons, List.sum_cons]
    omega

theorem fdiv_positive (x y : ℚ) (hx : 0 < x) (hy : 0 ≤ y) : (fdiv x y).positive := by
  unfold fdiv
  by_cases h : y = 0
  · simp [h, hx, FVal.positive]
  · have hy1 : 0 < y := lt_of_le_of_ne hy (Ne.symm h)
    simp only [h, if_false, FVal.positive]
    exact div_pos hx hy1

theorem aggregate_throughput_positive (results : List (Option ThreadStats))
    (h : ∀ s, some s ∈ results → Sound s)
    (hm : 0 < (results.foldl join_step ⟨0, 0, 0⟩).messages_received) :
    0 < (results.foldl join_step ⟨0, 0, 0⟩).bytes_received ∧
    (throughput_gbps (results.foldl join_step ⟨0, 0, 0⟩)).positive := by
  obtain ⟨i1, i2, i3, _, _⟩ := foldl_join_step results ⟨0, 0, 0⟩
  have hs : ∀ s ∈ results.reduceOption, Sound s :=
    fun s hs => h s (List.reduceOption_mem_iff.mp hs)
  have hle := sum_messages_le_bytes results.reduceOption hs
  simp only [zero_add] at i1 i2 i3
  have hb : 0 < (results.foldl join_step ⟨0, 0, 0⟩).bytes_received := by omega
  refine ⟨hb, ?_⟩
  unfold throughput_gbps
  apply fdiv_positive
  · have : (0 : ℚ) < ((results.foldl join_step ⟨0, 0, 0⟩).bytes_received : ℚ) := by exact_mod_cast hb
    linarith
  · exact mul_nonneg i3 (by norm_num)

theorem twocopy_result_sound (message_size run_duration : Int) (wi : Option WorkerInput)
    (s : ThreadStats) (hclock : ∀ i, wi = some i → ∀ k, 0 ≤ i.env.clock k)
    (h : A1_Client.thread_result message_size run_duration wi = some (some s)) : Sound s := by
  cases wi with
  | none => simp [A1_Client.thread_result] at h
  | some i =>
    simp only [A1_Client.thread_result, Worker.result] at h
    split_ifs at h
    simp only [Option.some.injEq] at h
    subst h
    exact A1_Client.twocopy_thread_sound message_size run_duration i.env i.running i.buffer i.script
      (hclock i rfl)

theorem onecopy_result_sound (message_size run_duration : Int) (wi : Option WorkerInput)
    (s : ThreadStats) (hclock : ∀ i, wi = some i → ∀ k, 0 ≤ i.env.clock k)
    (h : A2_Client.thread_result message_size run_duration wi = some (some s)) : Sound s := by
  cases wi with
  | none => simp [A2_Client.thread_result] at h
  | some i =>
    simp only [A2_Client.thread_result, Worker.result] at h
    split_ifs at h
    simp only [Option.some.injEq] at h
    subst h
    exact A2_Client.onecopy_thread_sound message_size run_duration i.env i.running i.buffer i.script
      (hclock i rfl)

theorem zerocopy_result_sound (message_size run_duration : Int) (wi : Option WorkerInput)
    (s : ThreadStats) (hclock : ∀ i, wi = some i → ∀ k, 0 ≤ i.env.clock k)
    (h : A3_Client.thread_result message_size run_duration wi = some (some s)) : Sound s := by
  cases wi with
  | none => simp [A3_Client.thread_result] at h
  | some i =>
    simp only [A3_Client.thread_result, Worker.result] at h
    split_ifs at h
    simp only [Option.some.injEq] at h
    subst h
    exact A3_Client.zerocopy_thread_sound message_size run_duration i.env i.running i.buffer i.script
      (hclock i rfl)

theorem joined_sound (f : Option WorkerInput → Option (Option ThreadStats))
    (workers : List (Option WorkerInput))
    (hf : ∀ wi ∈ workers, ∀ s, f wi = some (some s) → Sound s)
    (rs : List (Option ThreadStats)) (h : join_all (workers.map f) = some rs) :
    ∀ s, some s ∈ rs → Sound s := by
  intro s hs
  have h1 := join_all_mem _ rs h (some s) hs
  obtain ⟨wi, hwi, he⟩ := List.mem_map.mp h1
  exact hf wi hwi s he

/-- C13: for every run of any of the three clients (clock readings being
non-negative), every worker has `messages_received ≤ bytes_received`, so if the
aggregate `messages_received` is positive then the aggregate `bytes_received`
is positive and the reported throughput_gbps is greater than 0. -/
theorem throughput_positive (message_size run_duration : Int)
    (workers : List (Option WorkerInput))
    (hclock : ∀ i, some i ∈ workers → ∀ k, 0 ≤ i.env.clock k) :
    (∀ agg, A1_Client.main message_size run_duration workers = some agg →
      0 < agg.messages_received →
      0 < agg.bytes_received ∧ (throughput_gbps agg).positive) ∧
    (∀ agg, A2_Client.main message_size run_duration workers = some agg →
      0 < agg.messages_received →
      0 < agg.bytes_received ∧ (throughput_gbps agg).positive) ∧
    (∀ agg, A3_Client.main message_size run_duration workers = some agg →
      0 < agg.messages_received →
      0 < agg.bytes_received ∧ (throughput_gbps agg).positive) := by
  refine ⟨?_, ?_, ?_⟩
  · intro agg h hm
    simp only [A1_Client.main, Option.map_eq_some'] at h
    obtain ⟨rs, h1, rfl⟩ := h
    exact aggregate_throughput_positive rs
      (joined_sound _ workers
        (fun wi hwi s hs => twocopy_result_sound message_size run_duration wi s
          (fun i hi k => hclock i (hi ▸ hwi) k) hs) rs h1) hm
  · intro agg h hm
    simp only [A2_Client.main, Option.map_eq_some'] at h
    obtain ⟨rs, h1, rfl⟩ := h
    exact aggregate_throughput_positive rs
      (joined_sound _ workers
        (fun wi hwi s hs => onecopy_result_sound message_size run_duration wi s
          (fun i hi k => hclock i (hi ▸ hwi) k) hs) rs h1) hm
  · intro agg h hm
    simp only [A3_Client.main, Option.map_eq_some'] at h
    obtain ⟨rs, h1, rfl⟩ := h
    exact aggregate_throughput_positive rs
      (joined_sound _ workers
        (fun wi hwi s hs => zerocopy_result_sound message_size run_duration wi s
          (fun i hi k => hclock i (hi ▸ hwi) k) hs) rs h1) hm

theorem throughput_positive_witness :
    0 < (16 : Int) ∧ (throughput_gbps ⟨16, 1, 1⟩).positive :=
  (throughput_positive 2 30
    [some ⟨steady, true, [],
      [.bytes [1, 1], .bytes [2, 2], .bytes [3, 3], .bytes [4, 4], .bytes [5, 5], .bytes [6, 6],
       .bytes [7, 7], .bytes [8, 8], .bytes []]⟩, none]
    (by
      intro i hi k
      simp only [List.mem_cons, Option.some.injEq, List.mem_singleton, List.not_mem_nil,
        or_false, reduceCtorEq] at hi
      subst hi
      simp [steady])).1 ⟨16, 1, 1⟩ (by decide) (by decide)

namespace A2_Client

end A2_Client

/-! ## Properties of the one-copy server -/

namespace A2_Server

theorem allocate_fields_iov (field_size : Int) (aligned_ok : Nat → Bool) :
    ∀ (n i : Nat) (msg0 msg : MessageOneCopy),
      allocate_fields field_size aligned_ok n i msg0 = some msg →
      msg.iov = msg0.iov ++ (List.range n).map (fun j => ⟨i + j, to_size_t field_size⟩) ∧
      msg.fields = msg0.fields ++ (List.range n).map (fun j => field_content field_size (i + j)) := by
  intro n
  induction n with
  | zero =>
    intro i msg0 msg h
    simp only [allocate_fields, Option.some.injEq] at h
    subst h
    simp
  | succ n ih =>
    intro i msg0 msg h
    simp only [allocate_fields] at h
    split_ifs at h
    obtain ⟨h1, h2⟩ := ih (i + 1) _ msg h
    rw [h1, h2, List.range_succ_eq_map]
    simp only [List.append_assoc, List.singleton_append, List.map_cons, Nat.add_zero,
      List.map_map]
    refine ⟨?_, ?_⟩ <;>
      · congr 2
        apply List.map_congr_left
        intro j _
        simp only [Function.comp]
        congr 1
        omega

theorem handler_loop_frame (running : Nat → Bool) (msg : MessageOneCopy)
    (sends : List SendResult) :
    ∀ (k : Nat) (messages_sent : Int),
      (handler_loop running sends k msg messages_sent).msg = some msg ∧
      (∀ c ∈ (handler_loop running sends k msg messages_sent).calls,
        c = ⟨msg.iov, NUM_FIELDS⟩) ∧
      (((handler_loop running sends k msg messages_sent).calls.length : Int)
        = (handler_loop running sends k msg messages_sent).messages_sent - messages_sent
          + (if (handler_loop running sends k msg messages_sent).exit = Exit.send_error
              then 1 else 0)) := by
  induction sends with
  | nil =>
    intro k messages_sent
    by_cases h1 : running k = true <;> simp [handler_loop, h1]
  | cons s rest ih =>
    intro k messages_sent
    by_cases h1 : running k = true
    · by_cases h2 : s.ret < 0
      · simp [handler_loop, send_message_onecopy, h1, h2]
      · by_cases h3 : to_int s.ret < 0
        · simp [handler_loop, send_message_onecopy, h1, h2, h3]
        · obtain ⟨i1, i2, i3⟩ := ih (k + 1) (messages_sent + 1)
          simp only [handler_loop, send_message_onecopy, h1, h2, h3, if_true, if_false]
          refine ⟨i1, ?_, ?_⟩
          · intro c hc
            simp only [List.singleton_append, List.mem_cons] at hc
            rcases hc with hc | hc
            · exact hc
            · exact i2 c hc
          · simp only [List.singleton_append, List.length_cons]
            push_cast
            rw [i3]
            ring
    · simp [handler_loop, h1]

end A2_Server

namespace A2_Server

theorem field_content_length (field_size : Int) (i : Nat) (h : 0 < field_size) :
    ((field_content field_size i).length : Int) = field_size := by
  simp only [field_content, writeAt, List.length_append, List.length_take, List.length_replicate,
    List.length_drop, List.length_singleton, Nat.min_self, Nat.sub_self]
  omega

/-- C16: `send_message_onecopy` issues exactly one `sendmsg` call, whose
descriptor list is the 8 pre-allocated field buffers in index order 0..7, each
of length `field_size`, and leaves the descriptor list and the buffer contents
unchanged; so every call of a worker presents the identical descriptor list,
one call per message. -/
theorem sendmsg_same_descriptors (field_size : Int) (malloc_ok : Bool)
    (aligned_ok : Nat → Bool) (msg : MessageOneCopy) (hpos : 0 < field_size)
    (h : allocate_message_onecopy field_size malloc_ok aligned_ok = some msg) :
    msg.iov = (List.range 8).map (fun i => ⟨i, to_size_t field_size⟩) ∧
    msg.fields.length = 8 ∧
    (∀ f ∈ msg.fields, (f.length : Int) = field_size) ∧
    (∀ s : SendResult,
      (send_message_onecopy msg s).calls = [⟨msg.iov, 8⟩] ∧
      (send_message_onecopy msg s).msg = msg) ∧
    (∀ (running : Nat → Bool) (sends : List SendResult),
      (client_handler field_size malloc_ok aligned_ok running sends).msg = some msg ∧
      (∀ c ∈ (client_handler field_size malloc_ok aligned_ok running sends).calls,
        c = ⟨msg.iov, 8⟩) ∧
      (((client_handler field_size malloc_ok aligned_ok running sends).calls.length : Int)
        = (client_handler field_size malloc_ok aligned_ok running sends).messages_sent
          + (if (client_handler field_size malloc_ok aligned_ok running sends).exit
                = Exit.send_error then 1 else 0))) := by
  have h0 := h
  simp only [allocate_message_onecopy] at h0
  split_ifs at h0
  obtain ⟨h1, h2⟩ := allocate_fields_iov field_size aligned_ok NUM_FIELDS 0 ⟨[], []⟩ msg h0
  simp only [List.nil_append, Nat.zero_add, NUM_FIELDS] at h1 h2
  refine ⟨h1, by rw [h2]; simp, ?_, ?_, ?_⟩
  · intro f hf
    rw [h2] at hf
    obtain ⟨i, _, rfl⟩ := List.mem_map.mp hf
    exact field_content_length field_size i hpos
  · intro s
    simp only [send_message_onecopy, NUM_FIELDS]
    split_ifs <;> exact ⟨rfl, rfl⟩
  · intro running sends
    obtain ⟨i1, i2, i3⟩ := handler_loop_frame running msg sends 0 0
    simp only [client_handler, h]
    exact ⟨i1, i2, by simpa using i3⟩

theorem sendmsg_same_descriptors_witness :
    (client_handler 4 true (fun _ => true) (fun _ => true) [⟨32, 0⟩, ⟨32, 0⟩, ⟨-1, 32⟩]).calls
      = [⟨(List.range 8).map (fun i => ⟨i, 4⟩), 8⟩, ⟨(List.range 8).map (fun i => ⟨i, 4⟩), 8⟩,
         ⟨(List.range 8).map (fun i => ⟨i, 4⟩), 8⟩] ∧
    (∀ c ∈ (client_handler 4 true (fun _ => true) (fun _ => true)
        [⟨32, 0⟩, ⟨32, 0⟩, ⟨-1, 32⟩]).calls,
      c = ⟨(⟨(List.range 8).map (fun i => field_content 4 i),
            (List.range 8).map (fun i => ⟨i, to_size_t 4⟩)⟩ : MessageOneCopy).iov, 8⟩) :=
  ⟨by decide,
    ((sendmsg_same_descriptors 4 true (fun _ => true)
      ⟨(List.range 8).map (fun i => field_content 4 i),
        (List.range 8).map (fun i => ⟨i, to_size_t 4⟩)⟩ (by decide) (by decide)).2.2.2.2
      (fun _ => true) [⟨32, 0⟩, ⟨32, 0⟩, ⟨-1, 32⟩]).2.1⟩

end A2_Server

namespace A1_Server

/-- C17: when no `send` call reports an error, `send_message_twocopy` issues
exactly 8 `send` calls, the i-th on field i with requested length
`field_size`, and returns; when the call on field i reports an error (the
earlier ones having succeeded) it returns -1 having issued the calls on
fields 1..i only, none for the fields after i. -/
theorem send_message_twocopy_calls (field_size : Int) (pre rest : List SendResult)
    (e : SendResult) (hok : ∀ r ∈ pre, 0 ≤ r.ret) :
    (pre.length = 8 →
      (send_message_twocopy field_size (pre ++ rest)).calls
        = (List.range 8).map (fun i => (i + 1, to_size_t field_size)) ∧
      (send_message_twocopy field_size (pre ++ rest)).ret
        = some (to_int (pre.map SendResult.ret).sum) ∧
      (send_message_twocopy field_size (pre ++ rest)).rest = rest) ∧
    (pre.length < 8 → e.ret < 0 →
      (send_message_twocopy field_size (pre ++ e :: rest)).ret = some (-1) ∧
      (send_message_twocopy field_size (pre ++ e :: rest)).calls
        = (List.range (pre.length + 1)).map (fun i => (i + 1, to_size_t field_size)) ∧
      (send_message_twocopy field_size (pre ++ e :: rest)).rest = rest) := by
  constructor
  · intro hlen
    obtain ⟨a, b, c, d, f, g, k, l, rfl⟩ := length_eight pre hlen
    simp only [List.mem_cons, List.mem_singleton, forall_eq_or_imp, forall_eq, List.not_mem_nil,
      false_imp_iff, implies_true, and_true] at hok
    obtain ⟨ha, hb, hc, hd, hf, hg, hk, hl⟩ := hok
    simp [send_message_twocopy, send_fields, send_field, bind, Except.bind, not_lt.mpr ha,
      not_lt.mpr hb, not_lt.mpr hc, not_lt.mpr hd, not_lt.mpr hf, not_lt.mpr hg, not_lt.mpr hk,
      not_lt.mpr hl, List.range_succ]
    congr 1
    ring
  · intro hlen he
    rcases pre with _ | ⟨a, _ | ⟨b, _ | ⟨c, _ | ⟨d, _ | ⟨f, _ | ⟨g, _ | ⟨k, _ | ⟨l, t⟩⟩⟩⟩⟩⟩⟩⟩
    · simp [send_message_twocopy, send_fields, send_field, bind, Except.bind, he, List.range_succ]
    · simp only [List.mem_cons, List.mem_singleton, forall_eq_or_imp, forall_eq,
        List.not_mem_nil, false_imp_iff, implies_true, and_true] at hok
      simp [send_message_twocopy, send_fields, send_field, bind, Except.bind, he, List.range_succ,
        not_lt.mpr hok]
    · simp only [List.mem_cons, List.mem_singleton, forall_eq_or_imp, forall_eq,
        List.not_mem_nil, false_imp_iff, implies_true, and_true] at hok
      simp [send_message_twocopy, send_fields, send_field, bind, Except.bind, he, List.range_succ,
        not_lt.mpr hok.1, not_lt.mpr hok.2]
    · simp only [List.mem_cons, List.mem_singleton, forall_eq_or_imp, forall_eq,
        List.not_mem_nil, false_imp_iff, implies_true, and_true] at hok
      simp [send_message_twocopy, send_fields, send_field, bind, Except.bind, he, List.range_succ,
        not_lt.mpr hok.1, not_lt.mpr hok.2.1, not_lt.mpr hok.2.2]
    · simp only [List.mem_cons, List.mem_singleton, forall_eq_or_imp, forall_eq,
        List.not_mem_nil, false_imp_iff, implies_true, and_true] at hok
      simp [send_message_twocopy, send_fields, send_field, bind, Except.bind, he, List.range_succ,
        not_lt.mpr hok.1, not_lt.mpr hok.2.1, not_lt.mpr hok.2.2.1, not_lt.mpr hok.2.2.2]
    · simp only [List.mem_cons, List.mem_singleton, forall_eq_or_imp, forall_eq,
        List.not_mem_nil, false_imp_iff, implies_true, and_true] at hok
      simp [send_message_twocopy, send_fields, send_field, bind, Except.bind, he, List.range_succ,
        not_lt.mpr hok.1, not_lt.mpr hok.2.1, not_lt.mpr hok.2.2.1, not_lt.mpr hok.2.2.2.1,
        not_lt.mpr hok.2.2.2.2]
    · simp only [List.mem_cons, List.mem_singleton, forall_eq_or_imp, forall_eq,
        List.not_mem_nil, false_imp_iff, implies_true, and_true] at hok
      simp [send_message_twocopy, send_fields, send_field, bind, Except.bind, he, List.range_succ,
        not_lt.mpr hok.1, not_lt.mpr hok.2.1, not_lt.mpr hok.2.2.1, not_lt.mpr hok.2.2.2.1,
        not_lt.mpr hok.2.2.2.2.1, not_lt.mpr hok.2.2.2.2.2]
    · simp only [List.mem_cons, List.mem_singleton, forall_eq_or_imp, forall_eq,
        List.not_mem_nil, false_imp_iff, implies_true, and_true] at hok
      simp [send_message_twocopy, send_fields, send_field, bind, Except.bind, he, List.range_succ,
        not_lt.mpr hok.1, not_lt.mpr hok.2.1, not_lt.mpr hok.2.2.1, not_lt.mpr hok.2.2.2.1,
        not_lt.mpr hok.2.2.2.2.1, not_lt.mpr hok.2.2.2.2.2.1, not_lt.mpr hok.2.2.2.2.2.2]
    · simp only [List.length_cons] at hlen
      omega

theorem send_message_twocopy_calls_witness :
    (send_message_twocopy 4 ([⟨4, 0⟩, ⟨4, 0⟩] ++ ⟨-1, 32⟩ :: [⟨4, 0⟩])).ret = some (-1) ∧
    (send_message_twocopy 4 ([⟨4, 0⟩, ⟨4, 0⟩] ++ ⟨-1, 32⟩ :: [⟨4, 0⟩])).calls
      = (List.range (([⟨4, 0⟩, ⟨4, 0⟩] : List SendResult).length + 1)).map
          (fun i => (i + 1, to_size_t 4)) ∧
    (send_message_twocopy 4 ([⟨4, 0⟩, ⟨4, 0⟩] ++ ⟨-1, 32⟩ :: [⟨4, 0⟩])).rest = [⟨4, 0⟩] :=
  (send_message_twocopy_calls 4 [⟨4, 0⟩, ⟨4, 0⟩] [⟨4, 0⟩] ⟨-1, 32⟩ (by decide)).2
    (by decide) (by decide)

end A1_Server

/-! ## Interrupted and failing `recv` calls -/

namespace A1_Client

theorem receive_loop_calls_irrelevant (size : Nat) (s : List RecvResult) :
    ∀ (t : Nat) (b : List Nat) (c1 c2 : List (Nat × Nat)),
      visible (receive_loop size s t b c1) = visible (receive_loop size s t b c2) := by
  induction s with
  | nil =>
    intro t b c1 c2
    simp only [receive_loop]
    split_ifs <;> rfl
  | cons r rest ih =>
    intro t b c1 c2
    simp only [receive_loop]
    split_ifs
    · exact ih _ _ _ _
    · rfl
    · rfl
    · exact ih _ _ _ _
    · rfl

theorem receive_loop_skip_eintr (size : Nat) (s : List RecvResult) (n : Nat) :
    ∀ (t : Nat) (b : List Nat) (c : List (Nat × Nat)),
      visible (receive_loop size (List.replicate n (.fail EINTR) ++ s) t b c)
        = visible (receive_loop size s t b c) := by
  induction n with
  | zero => intro t b c; rfl
  | succ n ih =>
    intro t b c
    by_cases h : t < size
    · simp only [List.replicate_succ, List.cons_append, receive_loop, if_pos h, RecvResult.ret,
        RecvResult.errno]
      simp only [show ((-1 : Int) < 0) from by decide, if_true]
      exact (ih t b _).trans (receive_loop_calls_irrelevant size s t b _ _)
    · rw [receive_loop_satisfied size _ t b c h, receive_loop_satisfied size _ t b c h]
      rfl

theorem receive_loop_with_eintr (size : Nat) (counts : List Nat) :
    ∀ (s : List RecvResult) (t : Nat) (b : List Nat) (c : List (Nat × Nat)),
      visible (receive_loop size (with_eintr counts s) t b c)
        = visible (receive_loop size s t b c) := by
  induction counts with
  | nil => intro s t b c; rfl
  | cons n ns ih =>
    intro s t b c
    cases s with
    | nil =>
      have h := receive_loop_skip_eintr size [] n t b c
      simpa [with_eintr] using h
    | cons r s =>
      simp only [with_eintr]
      rw [receive_loop_skip_eintr]
      simp only [receive_loop]
      split_ifs
      · exact ih _ _ _ _
      · rfl
      · rfl
      · exact ih _ _ _ _
      · rfl

/-- C18: an interrupted `recv` is transparent to `receive_data`: for every
sequence of `recv` results, inserting any finite number of EINTR failures
anywhere in it changes neither the value `receive_data` returns nor the bytes
it leaves in the buffer (nor whether it returns). -/
theorem eintr_transparent (size : Nat) (buffer : List Nat) (counts : List Nat)
    (script : List RecvResult) :
    visible (receive_data size buffer (with_eintr counts script))
      = visible (receive_data size buffer script) :=
  receive_loop_with_eintr size counts script 0 buffer []

end A1_Client

namespace A1_Client

theorem to_ssize_t_ne_neg_one (t : Nat) (h : t < 2 ^ 64 - 1) : to_ssize_t t ≠ -1 := by
  have h1 : t % 2 ^ 64 = t := Nat.mod_eq_of_lt (by omega)
  unfold to_ssize_t
  rw [h1]
  split_ifs <;> omega

theorem error_ahead_nil (size t : Nat) : ¬ ErrorAhead size t [] := by
  rintro ⟨pre, e, rest, h, _⟩
  simp at h

theorem error_ahead_satisfied (size t : Nat) (s : List RecvResult) (h : ¬ t < size) :
    ¬ ErrorAhead size t s := by
  rintro ⟨pre, e, rest, _, _, _, hsum⟩
  omega

theorem error_ahead_hard (size t : Nat) (e : Int) (s : List RecvResult) (h : t < size)
    (he : e ≠ EINTR) : ErrorAhead size t (RecvResult.fail e :: s) :=
  ⟨[], e, s, rfl, he, by simp, by simpa using h⟩

theorem error_ahead_zero (size t : Nat) (s : List RecvResult) :
    ¬ ErrorAhead size t (RecvResult.bytes [] :: s) := by
  rintro ⟨pre, e, rest, h, _, hz, _⟩
  cases pre with
  | nil => simp at h
  | cons r pre1 =>
    simp only [List.cons_append, List.cons.injEq] at h
    have := hz r (List.mem_cons_self _ _)
    rw [← h.1] at this
    simp [RecvResult.ret] at this

theorem error_ahead_step (size t : Nat) (r : RecvResult) (s : List RecvResult)
    (hr : r.ret ≠ 0) (hsoft : ∀ e, r = RecvResult.fail e → e = EINTR) :
    ErrorAhead size t (r :: s) ↔ ErrorAhead size (t + r.chunk.length) s := by
  constructor
  · rintro ⟨pre, e, rest, h, he, hz, hsum⟩
    cases pre with
    | nil =>
      simp only [List.nil_append, List.cons.injEq] at h
      exact absurd (hsoft e h.1) he
    | cons r1 pre1 =>
      simp only [List.cons_append, List.cons.injEq] at h
      obtain ⟨h1, h2⟩ := h
      subst h1
      refine ⟨pre1, e, rest, h2, he, fun x hx => hz x (List.mem_cons_of_mem _ hx), ?_⟩
      simp only [List.map_cons, List.sum_cons] at hsum
      omega
  · rintro ⟨pre, e, rest, h, he, hz, hsum⟩
    refine ⟨r :: pre, e, rest, by simp [h], he, ?_, ?_⟩
    · intro x hx
      rcases List.mem_cons.mp hx with hx | hx
      · subst hx; exact hr
      · exact hz x hx
    · simp only [List.map_cons, List.sum_cons]
      omega

theorem receive_loop_error_iff (size : Nat) (hsize : size < 2 ^ 63) (s : List RecvResult) :
    ∀ (t : Nat) (b : List Nat) (c : List (Nat × Nat)),
      t < 2 ^ 64 - 1 → (∀ r ∈ s, r.chunk.length ≤ size) →
      ((receive_loop size s t b c).map RecvOutcome.ret = some (-1) ↔ ErrorAhead size t s) := by
  induction s with
  | nil =>
    intro t b c ht _
    have hne := to_ssize_t_ne_neg_one t ht
    simp only [receive_loop]
    split_ifs <;> simp [error_ahead_nil, hne]
  | cons r rest ih =>
    intro t b c ht hch
    have hne := to_ssize_t_ne_neg_one t ht
    have hrest : ∀ x ∈ rest, x.chunk.length ≤ size :=
      fun x hx => hch x (List.mem_cons_of_mem _ hx)
    by_cases hlt : t < size
    · cases r with
      | fail e =>
        by_cases he : e = EINTR
        · have h1 := ih t b (c ++ [(t, size - t)]) ht hrest
          have h2 := error_ahead_step size t (RecvResult.fail e) rest
            (by simp [RecvResult.ret]) (by intro e1 h; cases h; exact he)
          simp only [RecvResult.chunk, List.length_nil, Nat.add_zero] at h2
          simp only [receive_loop, if_pos hlt, RecvResult.ret, RecvResult.errno, he, if_true,
            show ((-1 : Int) < 0) from by decide]
          rw [h1, ← he]
          exact h2.symm
        · have h2 := error_ahead_hard size t e rest hlt he
          simp only [receive_loop, if_pos hlt, RecvResult.ret, RecvResult.errno, he, if_false,
            if_true, show ((-1 : Int) < 0) from by decide, Option.map_some']
          simp [h2]
      | bytes ch =>
        cases ch with
        | nil =>
          have h2 := error_ahead_zero size t rest
          simp [receive_loop, hlt, RecvResult.ret, hne, h2]
        | cons x xs =>
          have hlen := hch (RecvResult.bytes (x :: xs)) (List.mem_cons_self _ _)
          simp only [RecvResult.chunk, List.length_cons] at hlen
          have hmod : (t + (xs.length + 1)) % 2 ^ 64 = t + (xs.length + 1) :=
            Nat.mod_eq_of_lt (by omega)
          have h1 := ih (t + (xs.length + 1)) (writeAt b t (x :: xs)) (c ++ [(t, size - t)])
            (by omega) hrest
          have h2 := error_ahead_step size t (RecvResult.bytes (x :: xs)) rest
            (by simp [RecvResult.ret]; omega) (by intro e1 h; cases h)
          simp only [RecvResult.chunk, List.length_cons] at h2
          have n0 : ¬ ((xs.length : Int) + 1 < 0) := by omega
          have n1 : ¬ ((xs.length : Int) + 1 = 0) := by omega
          have e3 : ((xs.length : Int) + 1).toNat = xs.length + 1 := by omega
          simp only [receive_loop, if_pos hlt, RecvResult.ret, RecvResult.chunk,
            List.length_cons, Nat.cast_add, Nat.cast_one, if_neg n0, if_neg n1, e3, hmod]
          rw [h1]
          exact h2.symm
    · have h2 := error_ahead_satisfied size t (r :: rest) hlt
      rw [receive_loop_satisfied size _ t b c hlt]
      simp [hne, h2]

/-- C19: `receive_data` returns the error result -1 if and only if some `recv`
call, made before the requested size is satisfied and before any `recv`
returned 0, reports an error other than EINTR; short positive reads alone never
produce it.  The size is in the range of `ssize_t` and no `recv` returns more
than `size` bytes. -/
theorem error_result_iff (size : Nat) (buffer : List Nat) (script : List RecvResult)
    (hsize : size < 2 ^ 63) (hchunk : ∀ r ∈ script, r.chunk.length ≤ size) :
    (receive_data size buffer script).map RecvOutcome.ret = some (-1) ↔
      ∃ pre e rest, script = pre ++ RecvResult.fail e :: rest ∧ e ≠ EINTR ∧
        (∀ r ∈ pre, r.ret ≠ 0) ∧ (pre.map (fun r => r.chunk.length)).sum < size := by
  have h := receive_loop_error_iff size hsize script 0 buffer [] (by norm_num) hchunk
  simpa [ErrorAhead, receive_data] using h

theorem error_result_iff_witness :
    (receive_data 4 [] [.bytes [1, 2], .fail EINTR, .fail ECONNRESET, .bytes [3, 4]]).map
        RecvOutcome.ret = some (-1) ∧
    ((receive_data 4 [] [.bytes [1, 2], .fail EINTR, .fail ECONNRESET, .bytes [3, 4]]).map
        RecvOutcome.ret = some (-1) ↔
      ∃ pre e rest,
        [RecvResult.bytes [1, 2], .fail EINTR, .fail ECONNRESET, .bytes [3, 4]]
          = pre ++ RecvResult.fail e :: rest ∧ e ≠ EINTR ∧
        (∀ r ∈ pre, r.ret ≠ 0) ∧ (pre.map (fun r => r.chunk.length)).sum < 4) :=
  ⟨by decide,
    error_result_iff 4 [] [.bytes [1, 2], .fail EINTR, .fail ECONNRESET, .bytes [3, 4]]
      (by norm_num) (by decide)⟩

end A1_Client

/-! ## The run-control flag -/

theorem flag_history_zero (events : List FlagWrite) :
    flag_history 0 events = List.replicate (events.length + 1) 0 := by
  induction events with
  | nil => rfl
  | cons w ws ih =>
    have h : w.apply 0 = 0 := by
      cases w with
      | signal_handler _ => rfl
      | deadline e r => simp [FlagWrite.apply]
    simp only [flag_history, h, ih, List.length_cons]
    rfl

theorem flag_history_one (events : List FlagWrite) :
    ∃ a b, flag_history 1 events = List.replicate (a + 1) 1 ++ List.replicate b 0 := by
  induction events with
  | nil => exact ⟨0, 0, rfl⟩
  | cons w ws ih =>
    by_cases h : w.apply 1 = 0
    · refine ⟨0, ws.length + 1, ?_⟩
      simp only [flag_history, h, flag_history_zero]
      rfl
    · have h1 : w.apply 1 = 1 := by
        cases w with
        | signal_handler _ => simp [FlagWrite.apply] at h
        | deadline e r =>
          simp only [FlagWrite.apply] at h ⊢
          split_ifs at h ⊢
          · simp at h
          · rfl
      obtain ⟨a, b, hab⟩ := ih
      refine ⟨a + 1, b, ?_⟩
      simp only [flag_history, h1, hab]
      rfl

theorem twocopy_loop_running (message_size run_duration : Int) (env : ClientEnv)
    (fuel : Nat) (w : Worker)
    (h : (A1_Client.client_loop message_size run_duration env fuel w).2.running = true) :
    w.running = true := by
  by_cases hr : (w.running && !env.others w.heads) = true
  · simp only [Bool.and_eq_true] at hr
    exact hr.1
  · cases fuel with
    | zero => exact h
    | succ n => simp [A1_Client.client_loop, hr] at h

theorem onecopy_loop_running (message_size run_duration : Int) (env : ClientEnv)
    (script : List RecvResult) (w : Worker)
    (h : (A2_Client.client_loop message_size run_duration env script w).2.running = true) :
    w.running = true := by
  by_cases hr : (w.running && !env.others w.heads) = true
  · simp only [Bool.and_eq_true] at hr
    exact hr.1
  · cases script <;> simp [A2_Client.client_loop, hr] at h

theorem zerocopy_loop_running (message_size run_duration : Int) (env : ClientEnv)
    (script : List RecvResult) (w : Worker)
    (h : (A3_Client.client_loop message_size run_duration env script w).2.running = true) :
    w.running = true := by
  by_cases hr : (w.running && !env.others w.heads) = true
  · simp only [Bool.and_eq_true] at hr
    exact hr.1
  · cases script <;> simp [A3_Client.client_loop, hr] at h

theorem apply_of_clears (e : FlagWrite) (v : Int) (h : e.clears = true) : e.apply v = 0 := by
  cases e with
  | signal_handler _ => rfl
  | deadline el rd =>
    simp only [FlagWrite.clears, decide_eq_true_eq] at h
    simp only [FlagWrite.apply, if_pos h]

theorem apply_of_not_clears (e : FlagWrite) (v : Int) (h : e.clears = false) : e.apply v = v := by
  cases e with
  | signal_handler _ => simp [FlagWrite.clears] at h
  | deadline el rd =>
    simp only [FlagWrite.clears, decide_eq_false_iff_not] at h
    simp only [FlagWrite.apply, if_neg h]

theorem flag_history_exact (events : List FlagWrite) :
    flag_history 1 events
      = List.replicate ((events.takeWhile (fun e => !e.clears)).length + 1) 1
        ++ List.replicate (events.length - (events.takeWhile (fun e => !e.clears)).length) 0 := by
  induction events with
  | nil => rfl
  | cons w ws ih =>
    by_cases hc : w.clears = true
    · simp only [flag_history, apply_of_clears w 1 hc, flag_history_zero, List.takeWhile, hc,
        Bool.not_true, List.length_nil, Nat.zero_add, List.length_cons, Nat.sub_zero]
      rfl
    · have hc1 : w.clears = false := by simpa using hc
      simp only [flag_history, apply_of_not_clears w 1 hc1, ih, List.takeWhile, hc1,
        Bool.not_false, List.length_cons, Nat.add_sub_add_right]
      rfl

theorem twocopy_deadline_stops (message_size run_duration : Int) (env : ClientEnv)
    (fuel : Nat) (w w1 : Worker) (hrun : (w.running && !env.others w.heads) = true)
    (hdone : A1_Client.field_loop message_size 8
      { w with running := w.running && !env.others w.heads, heads := w.heads + 1 }
        = A1_Client.FieldLoop.done w1)
    (hd : env.clock w1.ticks ≥ (run_duration : ℚ)) :
    (A1_Client.client_loop message_size run_duration env (fuel + 2) w).1 = Exit.stopped ∧
    (A1_Client.client_loop message_size run_duration env (fuel + 2) w).2.running = false ∧
    (A1_Client.client_loop message_size run_duration env (fuel + 2) w).2.stats.messages_received
      = w1.stats.messages_received + 1 := by
  rw [hrun] at hdone
  simp [A1_Client.client_loop, hrun, hdone, hd]

theorem onecopy_deadline_stops (message_size run_duration : Int) (env : ClientEnv)
    (r : RecvResult) (rest : List RecvResult) (w : Worker)
    (hrun : (w.running && !env.others w.heads) = true) (hpos : 0 < r.ret)
    (hd : env.clock w.ticks ≥ (run_duration : ℚ)) :
    (A2_Client.client_loop message_size run_duration env (r :: rest) w).1 = Exit.stopped ∧
    (A2_Client.client_loop message_size run_duration env (r :: rest) w).2.running = false ∧
    (A2_Client.client_loop message_size run_duration env (r :: rest) w).2.stats.messages_received
      = w.stats.messages_received + 1 := by
  have hn : ¬ r.ret ≤ 0 := by omega
  cases rest <;>
    simp [A2_Client.client_loop, A2_Client.receive_message_onecopy, hrun, hn, hd]

theorem zerocopy_deadline_stops (message_size run_duration : Int) (env : ClientEnv)
    (r : RecvResult) (rest : List RecvResult) (w : Worker)
    (hrun : (w.running && !env.others w.heads) = true) (hpos : 0 < r.ret)
    (hd : env.clock w.ticks ≥ (run_duration : ℚ)) :
    (A3_Client.client_loop message_size run_duration env (r :: rest) w).1 = Exit.stopped ∧
    (A3_Client.client_loop message_size run_duration env (r :: rest) w).2.running = false ∧
    (A3_Client.client_loop message_size run_duration env (r :: rest) w).2.stats.messages_received
      = w.stats.messages_received + 1 := by
  have hn : ¬ r.ret ≤ 0 := by omega
  cases rest <;> simp [A3_Client.client_loop, hrun, hn, hd]

/-- C20: the run-control flag is monotone.  Every write to `running` sets it to
0: the signal handler of the servers always, the deadline check of the clients
whenever the deadline is reached (otherwise it does not write).  So in any
execution the flag is 1 up to the first such write and 0 from then on, never 1
again.  In the clients, a worker that reaches the deadline after a message
clears the flag and stops, and no receive loop ends with the flag set when it
started with the flag cleared. -/
theorem running_monotone (events : List FlagWrite) (message_size run_duration : Int)
    (env : ClientEnv) (fuel : Nat) (script : List RecvResult) (w w1 : Worker)
    (r : RecvResult) :
    (∀ (signum v : Int), (FlagWrite.signal_handler signum).apply v = 0) ∧
    (∀ (elapsed : ℚ) (rd v : Int), elapsed ≥ (rd : ℚ) →
      (FlagWrite.deadline elapsed rd).apply v = 0) ∧
    (∀ (elapsed : ℚ) (rd v : Int), ¬ elapsed ≥ (rd : ℚ) →
      (FlagWrite.deadline elapsed rd).apply v = v) ∧
    (flag_history 1 events
      = List.replicate ((events.takeWhile (fun e => !e.clears)).length + 1) 1
        ++ List.replicate (events.length - (events.takeWhile (fun e => !e.clears)).length) 0) ∧
    ((A1_Client.client_loop message_size run_duration env fuel w).2.running = true →
      w.running = true) ∧
    ((A2_Client.client_loop message_size run_duration env script w).2.running = true →
      w.running = true) ∧
    ((A3_Client.client_loop message_size run_duration env script w).2.running = true →
      w.running = true) ∧
    ((w.running && !env.others w.heads) = true →
      A1_Client.field_loop message_size 8
        { w with running := w.running && !env.others w.heads, heads := w.heads + 1 }
          = A1_Client.FieldLoop.done w1 →
      env.clock w1.ticks ≥ (run_duration : ℚ) →
      (A1_Client.client_loop message_size run_duration env (fuel + 2) w).1 = Exit.stopped ∧
      (A1_Client.client_loop message_size run_duration env (fuel + 2) w).2.running = false) ∧
    ((w.running && !env.others w.heads) = true → 0 < r.ret →
      env.clock w.ticks ≥ (run_duration : ℚ) →
      (A2_Client.client_loop message_size run_duration env (r :: script) w).1 = Exit.stopped ∧
      (A2_Client.client_loop message_size run_duration env (r :: script) w).2.running = false) ∧
    ((w.running && !env.others w.heads) = true → 0 < r.ret →
      env.clock w.ticks ≥ (run_duration : ℚ) →
      (A3_Client.client_loop message_size run_duration env (r :: script) w).1 = Exit.stopped ∧
      (A3_Client.client_loop message_size run_duration env (r :: script) w).2.running = false) := by
  refine ⟨fun _ _ => rfl, ?_, ?_, flag_history_exact events,
    twocopy_loop_running message_size run_duration env fuel w,
    onecopy_loop_running message_size run_duration env script w,
    zerocopy_loop_running message_size run_duration env script w, ?_, ?_, ?_⟩
  · intro elapsed rd v h
    simp only [FlagWrite.apply, if_pos h]
  · intro elapsed rd v h
    simp only [FlagWrite.apply, if_neg h]
  · intro h1 h2 h3
    have h := twocopy_deadline_stops message_size run_duration env fuel w w1 h1 h2 h3
    exact ⟨h.1, h.2.1⟩
  · intro h1 h2 h3
    have h := onecopy_deadline_stops message_size run_duration env r script w h1 h2 h3
    exact ⟨h.1, h.2.1⟩
  · intro h1 h2 h3
    have h := zerocopy_deadline_stops message_size run_duration env r script w h1 h2 h3
    exact ⟨h.1, h.2.1⟩

theorem running_monotone_witness :
    flag_history 1 [.deadline 1 30, .deadline 31 30, .signal_handler 2, .deadline 5 30]
      = [1, 1, 0, 0, 0] ∧
    (A3_Client.client_loop 1024 0 quiet [.bytes [7], .bytes [8]] (Worker.start true [] [])).1
      = Exit.stopped ∧
    (A3_Client.client_loop 1024 0 quiet [.bytes [7], .bytes [8]]
      (Worker.start true [] [])).2.running = false :=
  ⟨by decide,
    (running_monotone [] 1024 0 quiet 0 [.bytes [8]] (Worker.start true [] [])
      (Worker.start true [] []) (.bytes [7])).2.2.2.2.2.2.2.2.2
      (by decide) (by decide) (by decide)⟩

/-! ## Field sizes at the edges -/

namespace A1_Client

theorem receive_data_zero (buffer : List Nat) (script : List RecvResult) :
    receive_data 0 buffer script = some ⟨0, buffer, [], script⟩ := by
  have h := receive_loop_satisfied 0 script 0 buffer [] (by omega)
  have h0 : to_ssize_t 0 = 0 := by decide
  rw [h0] at h
  exact h

/-- C24: `receive_data` called with size 0 returns 0 without issuing any `recv`
call, and the worker takes that 0 for a closed connection: with
`message_size = 0` it leaves its receive loop on the first field, with
`messages_received = 0` and `bytes_received = 0` and without having read
anything, whatever the peer sends. -/
theorem zero_size_reads_as_closed (run_duration : Int) (env : ClientEnv) (running : Bool)
    (buffer : List Nat) (script : List RecvResult) :
    receive_data 0 buffer script = some ⟨0, buffer, [], script⟩ ∧
    (client_thread 0 run_duration env running buffer script).2.stats.messages_received = 0 ∧
    (client_thread 0 run_duration env running buffer script).2.stats.bytes_received = 0 ∧
    (client_thread 0 run_duration env running buffer script).2.calls = [] ∧
    (client_thread 0 run_duration env running buffer script).2.script = script ∧
    ((running && !env.others 0) = true →
      (client_thread 0 run_duration env running buffer script).1 = Exit.closed ∧
      (client_thread 0 run_duration env running buffer script).2.fields = [0]) := by
  have hz : to_size_t 0 = 0 := by decide
  refine ⟨receive_data_zero buffer script, ?_⟩
  by_cases hr : (running && !env.others 0) = true
  · simp [client_thread, client_loop, Worker.start, Worker.finish, field_loop, hr, hz,
      receive_data_zero]
  · simp [client_thread, client_loop, Worker.start, Worker.finish, hr]

theorem zero_size_reads_as_closed_witness :
    (client_thread 0 30 quiet true [] [.bytes [1, 2, 3], .bytes [4]]).1 = Exit.closed ∧
    (client_thread 0 30 quiet true [] [.bytes [1, 2, 3], .bytes [4]]).2.fields = [0] :=
  (zero_size_reads_as_closed 30 quiet true [] [.bytes [1, 2, 3], .bytes [4]]).2.2.2.2.2
    (by decide)

end A1_Client

namespace A1_Client

theorem writeAt_length (mem : List Nat) (off : Nat) (chunk : List Nat) :
    off + chunk.length ≤ (writeAt mem off chunk).length := by
  simp only [writeAt, List.length_append, List.length_take, List.length_replicate,
    List.length_drop]
  omega

theorem receive_data_one_chunk (size : Nat) (buffer chunk : List Nat) (h0 : 0 < chunk.length)
    (h1 : chunk.length < size) (hsize : size < 2 ^ 63) :
    receive_data size buffer [.bytes chunk, .bytes []]
      = some ⟨(chunk.length : Int), writeAt buffer 0 chunk,
          [(0, size), (chunk.length, size - chunk.length)], []⟩ := by
  have n0 : ¬ ((chunk.length : Int) < 0) := by omega
  have n1 : ¬ ((chunk.length : Int) = 0) := by omega
  have hmod : chunk.length % 2 ^ 64 = chunk.length := Nat.mod_eq_of_lt (by omega)
  have hs : to_ssize_t chunk.length = (chunk.length : Int) :=
    to_ssize_t_of_lt chunk.length (by omega)
  have hlt : 0 < size := by omega
  simp only [receive_data, receive_loop, if_pos hlt, RecvResult.ret, RecvResult.chunk,
    if_neg n0, if_neg n1, Int.toNat_ofNat, Nat.zero_add, hmod, if_pos h1, List.length_nil,
    Nat.cast_zero, lt_self_iff_false, if_false, if_true, hs, List.nil_append, Nat.sub_zero,
    List.cons_append]

/-- C21 (the code diverges): with `message_size = 16384` the worker asks `recv`
for 16384 bytes at the start of its buffer of `BUFFER_SIZE = 8192` bytes; when
the kernel delivers 9000 bytes in one call they are stored past the end of the
buffer. -/
theorem recv_beyond_buffer :
    (client_thread 16384 30 quiet true [] [.bytes [1], .bytes []]).2.calls
      = [(0, 16384), (1, 16383)] ∧
    BUFFER_SIZE < 0 + 16384 ∧
    (receive_data (to_size_t 16384) (List.replicate BUFFER_SIZE 0)
        [.bytes (List.replicate 9000 7), .bytes []]).map RecvOutcome.ret = some 9000 ∧
    (∀ o, receive_data (to_size_t 16384) (List.replicate BUFFER_SIZE 0)
        [.bytes (List.replicate 9000 7), .bytes []] = some o → BUFFER_SIZE < o.buffer.length) := by
  have hz : to_size_t 16384 = 16384 := by decide
  have hl : (List.replicate 9000 7 : List Nat).length = 9000 := List.length_replicate _ _
  have h := receive_data_one_chunk 16384 (List.replicate BUFFER_SIZE 0) (List.replicate 9000 7)
    (by rw [hl]; decide) (by rw [hl]; decide) (by decide)
  have hw := writeAt_length (List.replicate BUFFER_SIZE 0) 0 (List.replicate 9000 7)
  rw [hl] at h hw
  refine ⟨by decide, by decide, ?_, ?_⟩
  · rw [hz, h]
    rfl
  · intro o ho
    rw [hz, h] at ho
    cases ho
    show BUFFER_SIZE < (writeAt (List.replicate BUFFER_SIZE 0) 0 (List.replicate 9000 7)).length
    have hb : BUFFER_SIZE = 8192 := rfl
    omega

end A1_Client

/-! ## Server workers: allocation failure and the size of a message -/

/-- C22 (the code diverges): the allocation of the message fails while
`running` is set.  The two-copy and the one-copy worker return without a
`send`, having closed the connection; the zero-copy worker, which does not
test the pointer, calls `send_zerocopy` on the missing message and ends in a
null-pointer dereference instead of closing the connection. -/
theorem zerocopy_sends_on_missing_message :
    (A3_Server.client_handler_full 1024 false true (fun _ => true) [⟨8192, 0⟩] []).exit
      = Exit.null_deref ∧
    (A3_Server.client_handler_full 1024 false true (fun _ => true) [⟨8192, 0⟩] []).exit.closes
      = false ∧
    (A3_Server.client_handler_full 1024 true false (fun _ => true) [⟨8192, 0⟩] []).exit
      = Exit.null_deref ∧
    (A1_Server.client_handler 1024 false (fun _ => true) (fun _ => true) [⟨1024, 0⟩])
      = ⟨Exit.alloc_failed, 0, [], [⟨1024, 0⟩]⟩ ∧
    (A2_Server.client_handler 1024 false (fun _ => true) (fun _ => true) [⟨8192, 0⟩])
      = ⟨Exit.alloc_failed, 0, [], none, [⟨8192, 0⟩]⟩ ∧
    Exit.alloc_failed.closes = true := by
  decide

/-- C23 (the code diverges): with `field_size = 2^28` all eight `send` calls
transfer the whole field, `total_sent` is 2^31, and the narrowing to the `int`
return type yields -2^31; the worker takes it for an error and leaves its loop
without counting the message. -/
theorem narrowing_turns_success_into_error :
    (A1_Server.send_message_twocopy 268435456
      [⟨268435456, 0⟩, ⟨268435456, 0⟩, ⟨268435456, 0⟩, ⟨268435456, 0⟩, ⟨268435456, 0⟩,
       ⟨268435456, 0⟩, ⟨268435456, 0⟩, ⟨268435456, 0⟩]).total_sent = 8 * 268435456 ∧
    (A1_Server.send_message_twocopy 268435456
      [⟨268435456, 0⟩, ⟨268435456, 0⟩, ⟨268435456, 0⟩, ⟨268435456, 0⟩, ⟨268435456, 0⟩,
       ⟨268435456, 0⟩, ⟨268435456, 0⟩, ⟨268435456, 0⟩]).ret = some (-2147483648) ∧
    (A1_Server.client_handler 268435456 true (fun _ => true) (fun _ => true)
      [⟨268435456, 0⟩, ⟨268435456, 0⟩, ⟨268435456, 0⟩, ⟨268435456, 0⟩, ⟨268435456, 0⟩,
       ⟨268435456, 0⟩, ⟨268435456, 0⟩, ⟨268435456, 0⟩]).exit = Exit.send_error ∧
    (A1_Server.client_handler 268435456 true (fun _ => true) (fun _ => true)
      [⟨268435456, 0⟩, ⟨268435456, 0⟩, ⟨268435456, 0⟩, ⟨268435456, 0⟩, ⟨268435456, 0⟩,
       ⟨268435456, 0⟩, ⟨268435456, 0⟩, ⟨268435456, 0⟩]).messages_sent = 0 := by
  decide

end GRS
